import Mathlib

/-!
ACPI topology discovery of xv6 (`acpi.c`, `acpi.h`).

A shallow embedding of `acpi_checksum`, `find_rsdp_range`, `find_rsdp` and
`acpi_init`, and theorems about them.

Conventions of the embedding.

* Memory is a map from addresses to bytes, `Mem = Nat → Nat`; a byte read is
  `mem a % 256`, so every map is a well-formed memory. Multi-byte fields are
  read little-endian (x86) at the offsets the packed structs of `acpi.h` fix.
* xv6 is an i386 kernel: `int`, `uint32_t`, `size_t` and pointers are 32 bits
  wide. Unsigned arithmetic is reduced `% 2^32`; a conversion of a `uint32_t`
  to `int` is `toInt32`. Arithmetic on a pointer into a table is done in `Nat`
  (overflowing a pointer is undefined in C).
* `P2V`, the physical-to-virtual translator of `memlayout.h`, and `NCPU` of
  `param.h` are not part of the sources at hand: they are parameters `p2v` and
  `NCPU` of the definitions. A pointer `P2V(p)` is never null; a null pointer
  is `none`.
* A `for`/`while` loop whose trip count is not bounded by its header takes a
  `fuel` argument, the number of iterations it may run; running out of fuel is
  the outer `none` (resp. `Outcome.timeout`).
-/

namespace Acpi

/-- Memory: the byte stored at each address (only the value modulo 256 is used). -/
abbrev Mem := Nat → Nat

/-- Read of a `uint8_t`. -/
def rd8 (mem : Mem) (a : Nat) : Nat := mem a % 256

/-- Read of a little-endian `uint16_t`. -/
def rd16 (mem : Mem) (a : Nat) : Nat := rd8 mem a + 256 * rd8 mem (a + 1)

/-- Read of a little-endian `uint32_t`. -/
def rd32 (mem : Mem) (a : Nat) : Nat :=
  rd8 mem a + 256 * rd8 mem (a + 1) + 65536 * rd8 mem (a + 2) + 16777216 * rd8 mem (a + 3)

/-- Read of a little-endian `uint64_t`. -/
def rd64 (mem : Mem) (a : Nat) : Nat := rd32 mem a + 4294967296 * rd32 mem (a + 4)

/-- Conversion of a `uint32_t` value to `int` (two's complement, as gcc does). -/
def toInt32 (x : Nat) : Int := if x % 2 ^ 32 < 2 ^ 31 then (x % 2 ^ 32 : Nat) else (x % 2 ^ 32 : Nat) - 2 ^ 32

/-- A C string literal as bytes, with its terminating NUL. -/
def cstr (s : String) : List Nat := s.data.map Char.toNat ++ [0]

/-- The signature of the root pointer, `RSDP_SIG` of `acpi.h`. -/
def RSDP_SIG : String := "RSD PTR "

/-- The signature of the root table, `RSDT_SIG` of `acpi.h`. -/
def RSDT_SIG : String := "RSDT"

/-- The signature of the topology table, `MADT_SIG` of `acpi.h`. -/
def MADT_SIG : String := "APIC"

/-- Modelled from the spec: `memcmp` is declared in `defs.h` and defined outside
the sources at hand; the locator and the walker use it for a "signature match"
on the first `n` bytes. This is the usual byte-wise comparison: the difference
of the first pair of bytes that differ, `0` when the `n` bytes agree. The
second operand is a literal, given as its bytes. -/
def memcmp (mem : Mem) (v1 : Nat) (v2 : List Nat) : Nat → Int
  | 0 => 0
  | n + 1 =>
    if rd8 mem v1 ≠ v2.headD 0 then (rd8 mem v1 : Int) - (v2.headD 0 : Int)
    else memcmp mem (v1 + 1) v2.tail n

/-- `acpi_checksum(addr, len)`: the `uint8_t` accumulator `sum` runs over
`p[0..len)`; the result is `sum == 0`. With `len ≤ 0` the loop body never runs. -/
def acpi_checksum (mem : Mem) (addr : Nat) (len : Int) : Nat :=
  let sum := (List.range len.toNat).foldl (fun sum i => (sum + rd8 mem (addr + i)) % 256) 0
  if sum = 0 then 1 else 0

/-- Field `revision` of `struct rsdp` (offset 15). -/
def rsdp_revision (mem : Mem) (rsdp : Nat) : Nat := rd8 mem (rsdp + 15)

/-- Field `rsdt_address` of `struct rsdp` (offset 16). -/
def rsdp_rsdt_address (mem : Mem) (rsdp : Nat) : Nat := rd32 mem (rsdp + 16)

/-- Field `length` of `struct rsdp` (offset 20). -/
def rsdp_length (mem : Mem) (rsdp : Nat) : Nat := rd32 mem (rsdp + 20)

/-- Field `xsdt_address` of `struct rsdp` (offset 24). -/
def rsdp_xsdt_address (mem : Mem) (rsdp : Nat) : Nat := rd64 mem (rsdp + 24)

/-- The body of the loop of `find_rsdp_range` for the candidate at pointer
`rsdp`: `true` when control reaches `return rsdp`, `false` when one of the
three `continue`s is taken. -/
def rsdp_accept (mem : Mem) (rsdp : Nat) : Bool :=
  if memcmp mem rsdp (cstr RSDP_SIG) 8 ≠ 0 then false
  else if acpi_checksum mem rsdp 20 = 0 then false
  else if rsdp_revision mem rsdp ≥ 2 ∧
      acpi_checksum mem rsdp (toInt32 (rsdp_length mem rsdp)) = 0 then false
  else true

/-- `find_rsdp_range(start, end)`: `p` is a `uint32_t` stepping by 16 (modulo
`2^32`). `some (some r)` is `return rsdp` with `r = P2V(p)`, `some none` is
`return 0`, and `none` means the loop is still running after `fuel` iterations. -/
def find_rsdp_range (p2v : Nat → Nat) (mem : Mem) (fuel : Nat) (start end_ : Nat) :
    Option (Option Nat) :=
  match fuel with
  | 0 => none
  | fuel + 1 =>
    if start < end_ then
      if rsdp_accept mem (p2v start) then some (some (p2v start))
      else find_rsdp_range p2v mem fuel ((start + 16) % 2 ^ 32) end_
    else some none

/-- The EBDA base `find_rsdp` computes: `((uint32_t)(*ebda_seg)) << 4` with
`ebda_seg = P2V(0x40E)`. -/
def ebda_addr (p2v : Nat → Nat) (mem : Mem) : Nat := (rd16 mem (p2v 0x40E) * 16) % 2 ^ 32

/-- `find_rsdp()`: the first KB of the EBDA when `ebda_addr` is non-zero, then
the BIOS ROM area. Each of the two scans may run `fuel` iterations. -/
def find_rsdp (p2v : Nat → Nat) (mem : Mem) (fuel : Nat) : Option (Option Nat) :=
  if ebda_addr p2v mem ≠ 0 then
    match find_rsdp_range p2v mem fuel (ebda_addr p2v mem) ((ebda_addr p2v mem + 1024) % 2 ^ 32) with
    | none => none
    | some (some r) => some (some r)
    | some none => find_rsdp_range p2v mem fuel 0xE0000 0x100000
  else find_rsdp_range p2v mem fuel 0xE0000 0x100000

/-- Field `length` of `struct sdth` (offset 4). -/
def sdth_length (mem : Mem) (h : Nat) : Nat := rd32 mem (h + 4)

/-- The value of `sizeof(struct sdth)`: the packed header is 36 bytes. -/
def sizeof_sdth : Nat := 36

/-- Element `entry[i]` of `struct rsdt`: the array follows the 36-byte header. -/
def rsdt_entry (mem : Mem) (rsdt : Nat) (i : Nat) : Nat := rd32 mem (rsdt + 36 + 4 * i)

/-- Field `lapic_address` of `struct madt` (offset 36). -/
def madt_lapic_address (mem : Mem) (madt : Nat) : Nat := rd32 mem (madt + 36)

/-- The discovery state: the globals `lapic`, `ncpu`, `cpus[·].apicid` and
`ioapicid`. `cpus` maps every index to the `apicid` stored there, so that a
store outside `cpus[0..NCPU)` would be visible. -/
structure State where
  lapic : Nat
  ncpu : Nat
  cpus : Nat → Nat
  ioapicid : Nat

/-- How a run of `acpi_init` ends: it returns, it calls `panic` with a
diagnostic (which never returns), or it is still running when the fuel is
spent. The state is the one at that point. -/
inductive Outcome where
  | returned (s : State)
  | halted (msg : String) (s : State)
  | timeout

/-- The value `acpi_init` gives to `int entries`:
`(rsdt->header.length - sizeof(struct sdth)) / 4`, computed in `size_t`
(unsigned, 32 bits) and then converted to `int`. -/
def rsdt_entries (mem : Mem) (rsdt : Nat) : Int :=
  toInt32 (((sdth_length mem rsdt + 2 ^ 32 - sizeof_sdth) % 2 ^ 32) / 4)

/-- The table walker, the loop `for (int i = 0; i < entries; i++)` of
`acpi_init`, with `n` iterations left from index `i`: the pointer `P2V(rsdt->entry[k])`
of the first entry whose table starts with `MADT_SIG`, or `none` when `madt`
is still null at the end. -/
def find_madt (p2v : Nat → Nat) (mem : Mem) (rsdt : Nat) : Nat → Nat → Option Nat
  | 0, _ => none
  | n + 1, i =>
    if memcmp mem (p2v (rsdt_entry mem rsdt i)) (cstr MADT_SIG) 4 = 0 then
      some (p2v (rsdt_entry mem rsdt i))
    else find_madt p2v mem rsdt n (i + 1)

/-- The `switch` of the record loop of `acpi_init`, for the record at `p`. -/
def madt_record (NCPU : Nat) (mem : Mem) (p : Nat) (s : State) : State :=
  match rd8 mem p with
  | 0 =>
    if rd32 mem (p + 4) &&& 1 ≠ 0 then
      if s.ncpu < NCPU then
        { s with cpus := Function.update s.cpus s.ncpu (rd8 mem (p + 3)), ncpu := s.ncpu + 1 }
      else s
    else s
  | 1 => { s with ioapicid := rd8 mem (p + 2) }
  | _ => s

/-- The record loop `while (p < end)` of `acpi_init`: `none` when it is still
running after `fuel` iterations. -/
def madt_loop (NCPU : Nat) (mem : Mem) (end_ : Nat) : Nat → Nat → State → Option State
  | 0, _, _ => none
  | fuel + 1, p, s =>
    if p < end_ then madt_loop NCPU mem end_ fuel (p + rd8 mem (p + 1)) (madt_record NCPU mem p s)
    else some s

/-- The part of `acpi_init` that follows the walker, for a non-null `madt`:
publish `lapic`, parse the records, check `ncpu`. -/
def acpi_parse_madt (NCPU : Nat) (mem : Mem) (fuel : Nat) (madt : Nat) (s : State) : Outcome :=
  let s1 : State := { s with lapic := madt_lapic_address mem madt }
  let s2 : State := { s1 with ncpu := 0 }
  match madt_loop NCPU mem (madt + sdth_length mem madt) fuel (madt + 44) s2 with
  | none => Outcome.timeout
  | some s3 =>
    if s3.ncpu = 0 then Outcome.halted "ACPI: no enabled CPUs" s3 else Outcome.returned s3

/-- The part of `acpi_init` that follows `find_rsdp`, for a non-null `rsdp`. -/
def acpi_walk (p2v : Nat → Nat) (NCPU : Nat) (mem : Mem) (fuel : Nat) (rsdp : Nat) (s : State) :
    Outcome :=
  if rsdp_revision mem rsdp ≥ 2 ∧ rsdp_xsdt_address mem rsdp ≠ 0 then
    Outcome.halted "ACPI: XSDT not supported" s
  else
    let rsdt := p2v (rsdp_rsdt_address mem rsdp)
    match find_madt p2v mem rsdt (rsdt_entries mem rsdt).toNat 0 with
    | none => Outcome.halted "ACPI: MADT not found" s
    | some madt => acpi_parse_madt NCPU mem fuel madt s

/-- `acpi_init()`, run from the state `s` of the globals. -/
def acpi_init (p2v : Nat → Nat) (NCPU : Nat) (mem : Mem) (fuel : Nat) (s : State) : Outcome :=
  match find_rsdp p2v mem fuel with
  | none => Outcome.timeout
  | some none => Outcome.halted "ACPI: RSDP not found" s
  | some (some rsdp) => acpi_walk p2v NCPU mem fuel rsdp s

/-- Sum of the `n` bytes starting at `addr`, as a natural number. -/
def byte_sum (mem : Mem) (addr n : Nat) : Nat :=
  ((List.range n).map (fun i => rd8 mem (addr + i))).sum

/-- The table at pointer `r` starts with the characters of `sig`. -/
def has_signature (mem : Mem) (r : Nat) (sig : String) : Prop :=
  ∀ i, i < sig.length → rd8 mem (r + i) = (cstr sig).getD i 0

instance (mem : Mem) (r : Nat) (sig : String) : Decidable (has_signature mem r sig) := by
  unfold has_signature
  infer_instance

/-- The record starts `recs` tile the region `[p, end_)`: each record starts
where the one before it ends, inside the region, has a non-zero declared
length (its second byte), and the last one ends at `end_`. -/
def records_tile (mem : Mem) (end_ : Nat) : Nat → List Nat → Bool
  | p, [] => decide (p = end_)
  | p, r :: rs =>
    decide (r = p) && decide (p < end_) && decide (rd8 mem (p + 1) ≠ 0) &&
      records_tile mem end_ (p + rd8 mem (p + 1)) rs

/-- The record at `r` is of type 0 (`struct madt_lapic`) and bit 0 of its
`flags` is set. -/
def lapic_enabled (mem : Mem) (r : Nat) : Bool :=
  decide (rd8 mem r = 0 ∧ rd32 mem (r + 4) % 2 = 1)

/-- The `apic_id` fields of the enabled type-0 records among `recs`, in order. -/
def enabled_ids (mem : Mem) (recs : List Nat) : List Nat :=
  (recs.filter (lapic_enabled mem)).map (fun r => rd8 mem (r + 3))

/-- The `switch` of the record loop run over the records `recs` in order. -/
def madt_records_fold (NCPU : Nat) (mem : Mem) (recs : List Nat) (s : State) : State :=
  recs.foldl (fun s r => madt_record NCPU mem r s) s

/-- The memory `rest` with the bytes `bs` stored from address `base` on. -/
def image (base : Nat) (bs : List Nat) (rest : Mem) : Mem :=
  fun a => if base ≤ a ∧ a < base + bs.length then bs.getD (a - base) 0 else rest a

/-- The memory that is zero everywhere. -/
def zero_mem : Mem := fun _ => 0

/-- The CPU list `cpus[0..ncpu)` of a state. -/
def State.cpu_list (s : State) : List Nat := (List.range s.ncpu).map s.cpus

/-- The state in which a run ended, when it did end. -/
def Outcome.state : Outcome → Option State
  | Outcome.returned s => some s
  | Outcome.halted _ s => some s
  | Outcome.timeout => none

/-- The CPU list published by a run that returned. -/
def Outcome.cpu_list : Outcome → Option (List Nat)
  | Outcome.returned s => some s.cpu_list
  | _ => none

/-- The I/O APIC id published by a run that returned. -/
def Outcome.ioapicid : Outcome → Option Nat
  | Outcome.returned s => some s.ioapicid
  | _ => none

/-- The diagnostic of a run that ended in `panic`. -/
def Outcome.diagnostic : Outcome → Option String
  | Outcome.halted msg _ => some msg
  | _ => none

/-- The state of the globals before `acpi_init` runs (zeroed). -/
def boot_state : State := ⟨0, 0, fun _ => 0, 0⟩

/-- A revision-0 root pointer with a correct 20-byte checksum: "RSD PTR ",
checksum 66, OEM id "BOCHS ", revision 0, `rsdt_address = 0x1000`. -/
def rsdp_rev0 : List Nat :=
  [82, 83, 68, 32, 80, 84, 82, 32, 66, 66, 79, 67, 72, 83, 32, 0, 0, 16, 0, 0]

/-- The root pointer `rsdp_rev0` followed by arbitrary bytes in the place of
the extended fields. -/
def rsdp_rev0_junk : List Nat :=
  rsdp_rev0 ++ [222, 173, 190, 239, 255, 255, 255, 255, 255, 255, 255, 255, 119, 1, 2, 3]

/-- A revision-2 root pointer with a correct 20-byte checksum, `length =
0x80000000`, `xsdt_address = 0` and the extended checksum byte set to 1. -/
def rsdp_rev2_huge : List Nat :=
  [82, 83, 68, 32, 80, 84, 82, 32, 64, 66, 79, 67, 72, 83, 32, 2, 0, 16, 0, 0,
   0, 0, 0, 128, 0, 0, 0, 0, 0, 0, 0, 0, 1, 0, 0, 0]

/-- A revision-2 root pointer, both checksums correct, `length = 36`,
`rsdt_address = 0` and `xsdt_address = 0x3000`. -/
def rsdp_rev2_xsdt : List Nat :=
  [82, 83, 68, 32, 80, 84, 82, 32, 80, 66, 79, 67, 72, 83, 32, 2, 0, 0, 0, 0,
   36, 0, 0, 0, 0, 48, 0, 0, 0, 0, 0, 0, 172, 0, 0, 0]

/-- A root table "RSDT" of declared length 40 with the single entry `0x2000`. -/
def rsdt_one : List Nat :=
  [82, 83, 68, 84, 40, 0, 0, 0, 1, 0, 66, 79, 67, 72, 83, 32, 66, 88, 80, 67, 32, 32, 32, 32,
   1, 0, 0, 0, 66, 88, 80, 67, 1, 0, 0, 0, 0, 32, 0, 0]

/-- The bytes of `rsdt_one` with the declared length 32, less than the header size. -/
def rsdt_short : List Nat :=
  [82, 83, 68, 84, 32, 0, 0, 0, 1, 0, 66, 79, 67, 72, 83, 32, 66, 88, 80, 67, 32, 32, 32, 32,
   1, 0, 0, 0, 66, 88, 80, 67, 1, 0, 0, 0, 0, 32, 0, 0]

/-- A topology table "APIC" of declared length 80, `lapic_address =
0xFEE00000`, with the records LocalAPIC(enabled, id 1), LocalAPIC(disabled,
id 2), IOAPIC(id 5), LocalAPIC(enabled, id 3). -/
def madt_four : List Nat :=
  [65, 80, 73, 67, 80, 0, 0, 0, 1, 0, 66, 79, 67, 72, 83, 32, 66, 88, 80, 67, 32, 32, 32, 32,
   1, 0, 0, 0, 66, 88, 80, 67, 1, 0, 0, 0, 0, 0, 224, 254, 1, 0, 0, 0,
   0, 8, 0, 1, 1, 0, 0, 0,
   0, 8, 1, 2, 0, 0, 0, 0,
   1, 12, 5, 0, 0, 0, 192, 254, 0, 0, 0, 0,
   0, 8, 2, 3, 1, 0, 0, 0]

/-- A memory with the EBDA segment `0x9FC0` at `0x40E`, the root pointer
`rsdp_rev0` at the start of the EBDA, the root table `rsdt_one` at `0x1000`
and the topology table `madt_four` at `0x2000`. -/
def mem_demo : Mem :=
  image 0x40E [0xC0, 0x9F] (image 0x9FC00 rsdp_rev0 (image 0x1000 rsdt_one
    (image 0x2000 madt_four zero_mem)))

/-- The memory `mem_demo` with a second root pointer, at the start of the ROM window. -/
def mem_two_rsdp : Mem := image 0xE0000 rsdp_rev0_junk mem_demo

/-- A memory whose only root pointer sits at `0xE0008`, not a multiple of 16. -/
def mem_misaligned : Mem := image 0xE0008 rsdp_rev0 zero_mem

/-- The bytes of `mem_misaligned`, moved to the aligned address `0xE0010`. -/
def mem_aligned : Mem := image 0xE0010 rsdp_rev0 zero_mem

/-- A memory whose root pointer, at `0xE0000`, is `rsdp_rev2_huge`. -/
def mem_huge_length : Mem := image 0xE0000 rsdp_rev2_huge zero_mem

/-- A memory whose root pointer, at `0xE0000`, is `rsdp_rev2_xsdt`. -/
def mem_xsdt : Mem := image 0xE0000 rsdp_rev2_xsdt zero_mem

/-- The memory `mem_demo` with the root table replaced by `rsdt_short`. -/
def mem_short_rsdt : Mem := image 0x1000 rsdt_short mem_demo

/-- The record starts `recs` cover the region `[p, end_)`: as `records_tile`,
except that the last record may run past `end_` (the loop condition is only
`p < end`). -/
def records_cover (mem : Mem) (end_ : Nat) : Nat → List Nat → Bool
  | p, [] => decide (¬ p < end_)
  | p, r :: rs =>
    decide (r = p) && decide (p < end_) && decide (rd8 mem (p + 1) ≠ 0) &&
      records_cover mem end_ (p + rd8 mem (p + 1)) rs

/-- The `ioapic_id` fields of the type-1 records (`struct madt_ioapic`) among
`recs`, in order. -/
def ioapic_ids (mem : Mem) (recs : List Nat) : List Nat :=
  (recs.filter (fun r => decide (rd8 mem r = 1))).map (fun r => rd8 mem (r + 2))

/-- The fields of the record at `r` that the `switch` reads: the type, bit 0
of the `flags` and the `apic_id` of a `struct madt_lapic`, the `ioapic_id` of a
`struct madt_ioapic`. -/
def record_fields (mem : Mem) (r : Nat) : Nat × Nat × Nat × Nat :=
  (rd8 mem r, rd32 mem (r + 4) % 2, rd8 mem (r + 3), rd8 mem (r + 2))

/-- The fields of the records of type 0 and 1 among `recs`, in order. -/
def known_records (mem : Mem) (recs : List Nat) : List (Nat × Nat × Nat × Nat) :=
  (recs.filter (fun r => decide (rd8 mem r < 2))).map (record_fields mem)

/-- The cursor `p` of the record loop after `i` executions of `p += len`,
started at `p`. -/
def madt_cursor (mem : Mem) (p : Nat) : Nat → Nat
  | 0 => p
  | i + 1 => madt_cursor mem (p + rd8 mem (p + 1)) i

/-- The loop of `find_rsdp_range`, recording the values of `p` for which the
body runs, in order, up to `fuel` of them. -/
def find_rsdp_range_visits (p2v : Nat → Nat) (mem : Mem) (fuel : Nat) (start end_ : Nat) :
    List Nat :=
  match fuel with
  | 0 => []
  | fuel + 1 =>
    if start < end_ then
      if rsdp_accept mem (p2v start) then [start]
      else start :: find_rsdp_range_visits p2v mem fuel ((start + 16) % 2 ^ 32) end_
    else []

/-- The 44 bytes before the records of a topology table "APIC" with declared
length `len`, `lapic_address = 0xFEE00000` and `flags = 1`. -/
def madt_header (len : Nat) : List Nat :=
  [65, 80, 73, 67, len % 256, len / 256 % 256, len / 65536 % 256, len / 16777216 % 256,
   1, 0, 66, 79, 67, 72, 83, 32, 66, 88, 80, 67, 32, 32, 32, 32,
   1, 0, 0, 0, 66, 88, 80, 67, 1, 0, 0, 0, 0, 0, 224, 254, 1, 0, 0, 0]

/-- The memory `mem_demo` with the bytes `table` at `0x2000`, where the root
table points. -/
def mem_with_madt (table : List Nat) : Mem := image 0x2000 table mem_demo

/-- A topology table with the records IOAPIC(id 5), LocalAPIC(enabled, id 1),
a 10-byte record of type 2, IOAPIC(id 9). -/
def mem_two_ioapic : Mem :=
  mem_with_madt (madt_header 86 ++
    [1, 12, 5, 0, 0, 0, 192, 254, 0, 0, 0, 0,
     0, 8, 0, 1, 1, 0, 0, 0,
     2, 10, 0, 9, 9, 0, 0, 0, 0, 0,
     1, 12, 9, 0, 0, 0, 192, 254, 0, 0, 0, 0])

/-- A topology table with the records LocalAPIC(disabled, id 2), IOAPIC(id 5). -/
def mem_no_cpu : Mem :=
  mem_with_madt (madt_header 64 ++
    [0, 8, 0, 2, 0, 0, 0, 0,
     1, 12, 5, 0, 0, 0, 192, 254, 0, 0, 0, 0])

/-- A topology table with the record LocalAPIC(enabled, id 1) followed by a
record of type 2 whose declared length is 0. -/
def mem_zero_len : Mem :=
  mem_with_madt (madt_header 56 ++
    [0, 8, 0, 1, 1, 0, 0, 0,
     2, 0, 0, 0])

/-- A topology table with the single record LocalAPIC(enabled, id 4). -/
def mem_lapic_only : Mem :=
  mem_with_madt (madt_header 52 ++ [0, 8, 0, 4, 1, 0, 0, 0])

/-- The topology table of `mem_demo` with a 10-byte record of type 2 inserted
after the first record, and the declared length raised to 90. -/
def mem_five : Mem :=
  mem_with_madt (madt_header 90 ++
    [0, 8, 0, 1, 1, 0, 0, 0,
     2, 10, 0, 9, 9, 0, 0, 0, 0, 0,
     0, 8, 1, 2, 0, 0, 0, 0,
     1, 12, 5, 0, 0, 0, 192, 254, 0, 0, 0, 0,
     0, 8, 2, 3, 1, 0, 0, 0])

/-- A topology table of declared length 46: its body is the first two bytes
(type 0, length 8) of a Local APIC record; the six bytes after the end of the
table are `0, apic, 1, 0, 0, 0`. -/
def mem_trunc (apic : Nat) : Mem :=
  mem_with_madt (madt_header 46 ++ [0, 8, 0, apic, 1, 0, 0, 0])

/-- The validity of a root pointer at `r` in the words of the spec: the 8-byte
signature matches, the first 20 bytes sum to zero modulo 256 and, when the
revision is 2 or more, the full extended region, the first `length` bytes,
sums to zero too. -/
def rsdp_valid (mem : Mem) (r : Nat) : Prop :=
  has_signature mem r RSDP_SIG ∧ byte_sum mem r 20 % 256 = 0 ∧
    (2 ≤ rsdp_revision mem r → byte_sum mem r (rsdp_length mem r) % 256 = 0)

instance (mem : Mem) (r : Nat) : Decidable (rsdp_valid mem r) := by
  unfold rsdp_valid
  infer_instance

/-- A memory with the EBDA segment `0x9FC0` at `0x40E`, the root pointer
`rsdp_rev2_huge` at the start of the EBDA, `0x9FC00`, and the revision-0 root
pointer `rsdp_rev0` at `0x9FC30`; zero elsewhere. -/
def mem_ebda_unverified : Mem :=
  image 0x40E [0xC0, 0x9F] (image 0x9FC00 rsdp_rev2_huge (image 0x9FC30 rsdp_rev0 zero_mem))

/-- A memory with no EBDA segment, the root pointer `rsdp_rev2_huge` at the
start of the ROM window, the root table `rsdt_one` at `0x1000` and the topology
table `madt_four` at `0x2000`. -/
def mem_unverified : Mem :=
  image 0xE0000 rsdp_rev2_huge (image 0x1000 rsdt_one (image 0x2000 madt_four zero_mem))

/-- The memory `mem_huge_length` with the revision-0 root pointer `rsdp_rev0`
at `0xE0038`, not a multiple of 16. -/
def mem_unverified_misaligned : Mem := image 0xE0038 rsdp_rev0 mem_huge_length

end Acpi

/-! ## Theorems -/

namespace Acpi

theorem rd8_lt (mem : Mem) (a : Nat) : rd8 mem a < 256 := Nat.mod_lt _ (by norm_num)

theorem checksum_fold (f : Nat → Nat) (n : Nat) :
    (List.range n).foldl (fun sum i => (sum + f i) % 256) 0 = ((List.range n).map f).sum % 256 := by
  induction n with
  | zero => simp
  | succ n ih =>
    simp only [List.range_succ, List.foldl_append, List.foldl_cons, List.foldl_nil, ih,
      List.map_append, List.map_cons, List.map_nil, List.sum_append, List.sum_cons, List.sum_nil,
      Nat.add_zero]
    omega

theorem acpi_checksum_eq (mem : Mem) (addr : Nat) (len : Int) :
    acpi_checksum mem addr len = if byte_sum mem addr len.toNat % 256 = 0 then 1 else 0 := by
  unfold acpi_checksum byte_sum
  simp only [checksum_fold]

/-- C1: for every memory, address and length `n ≥ 0`, `acpi_checksum` returns 1
exactly when the sum of the `n` bytes from `addr` is 0 modulo 256 and returns 0
otherwise; a zero-length buffer is valid, a one-byte buffer is valid iff the
byte is 0. -/
theorem acpi_checksum_valid_iff (mem : Mem) (addr n : Nat) :
    (acpi_checksum mem addr (n : Int) = 1 ↔ byte_sum mem addr n % 256 = 0) ∧
    (acpi_checksum mem addr (n : Int) = 0 ↔ byte_sum mem addr n % 256 ≠ 0) ∧
    acpi_checksum mem addr 0 = 1 ∧
    (acpi_checksum mem addr 1 = 1 ↔ rd8 mem addr = 0) := by
  refine ⟨?_, ?_, ?_, ?_⟩
  · rw [acpi_checksum_eq, Int.toNat_ofNat]; split <;> simp_all
  · rw [acpi_checksum_eq, Int.toNat_ofNat]; split <;> simp_all
  · simp [acpi_checksum]
  · have h := rd8_lt mem addr
    rw [acpi_checksum_eq]
    have e : byte_sum mem addr (1 : Int).toNat = rd8 mem addr := by
      simp [byte_sum, List.range_succ]
    rw [e, Nat.mod_eq_of_lt h]
    split <;> simp_all

theorem find_rsdp_range_found (p2v : Nat → Nat) (mem : Mem) :
    ∀ (k fuel start end_ : Nat), k < fuel → start + 16 * k < end_ → end_ ≤ 2 ^ 32 →
      (∀ j, j < k → rsdp_accept mem (p2v (start + 16 * j)) = false) →
      rsdp_accept mem (p2v (start + 16 * k)) = true →
      find_rsdp_range p2v mem fuel start end_ = some (some (p2v (start + 16 * k))) := by
  intro k
  induction k with
  | zero =>
    intro fuel start end_ hf hlt _ _ hk
    obtain ⟨f, rfl⟩ : ∃ f, fuel = f + 1 := ⟨fuel - 1, by omega⟩
    simp only [Nat.mul_zero, Nat.add_zero] at hlt hk ⊢
    simp [find_rsdp_range, hlt, hk]
  | succ k ih =>
    intro fuel start end_ hf hlt hend hj hk
    obtain ⟨f, rfl⟩ : ∃ f, fuel = f + 1 := ⟨fuel - 1, by omega⟩
    have h0 : rsdp_accept mem (p2v start) = false := by simpa using hj 0 (by omega)
    have hs : start < end_ := by omega
    have hm : (start + 16) % 2 ^ 32 = start + 16 := Nat.mod_eq_of_lt (by omega)
    have e : ∀ j, start + 16 + 16 * j = start + 16 * (j + 1) := fun j => by ring
    simp only [find_rsdp_range, hs, h0, if_true, hm]
    rw [← e k]
    apply ih f (start + 16) end_ (by omega) (by rw [e]; exact hlt) hend
    · intro j hjk
      rw [e]; exact hj (j + 1) (by omega)
    · rw [e]; exact hk

theorem find_rsdp_range_null (p2v : Nat → Nat) (mem : Mem) :
    ∀ (n fuel start end_ : Nat), n < fuel → end_ ≤ start + 16 * n → start + 16 * n < 2 ^ 32 →
      (∀ j, start + 16 * j < end_ → rsdp_accept mem (p2v (start + 16 * j)) = false) →
      find_rsdp_range p2v mem fuel start end_ = some none := by
  intro n
  induction n with
  | zero =>
    intro fuel start end_ hf hle _ _
    obtain ⟨f, rfl⟩ : ∃ f, fuel = f + 1 := ⟨fuel - 1, by omega⟩
    have hs : ¬ start < end_ := by omega
    simp [find_rsdp_range, hs]
  | succ n ih =>
    intro fuel start end_ hf hle hw hj
    obtain ⟨f, rfl⟩ : ∃ f, fuel = f + 1 := ⟨fuel - 1, by omega⟩
    by_cases hs : start < end_
    · have h0 : rsdp_accept mem (p2v start) = false := by simpa using hj 0 (by omega)
      have hm : (start + 16) % 2 ^ 32 = start + 16 := Nat.mod_eq_of_lt (by omega)
      have e : ∀ j, start + 16 + 16 * j = start + 16 * (j + 1) := fun j => by ring
      simp only [find_rsdp_range, hs, h0, if_true, hm]
      apply ih f (start + 16) end_ (by omega) (by rw [e]; exact hle) (by rw [e]; exact hw)
      intro j hlt
      rw [e]; exact hj (j + 1) (by rw [← e]; exact hlt)
    · simp [find_rsdp_range, hs]

theorem ebda_addr_eq (p2v : Nat → Nat) (mem : Mem) :
    ebda_addr p2v mem = 16 * rd16 mem (p2v 0x40E) ∧ ebda_addr p2v mem ≤ 0xFFFF0 ∧
      (ebda_addr p2v mem + 1024) % 2 ^ 32 = ebda_addr p2v mem + 1024 := by
  have h1 := rd8_lt mem (p2v 0x40E)
  have h2 := rd8_lt mem (p2v 0x40E + 1)
  unfold ebda_addr rd16
  omega

theorem find_rsdp_ebda (p2v : Nat → Nat) (mem : Mem) (fuel k : Nat) (hfuel : k < fuel)
    (hk : k < 64) (he : ebda_addr p2v mem ≠ 0)
    (hv : rsdp_accept mem (p2v (ebda_addr p2v mem + 16 * k)) = true)
    (hlow : ∀ j, j < k → rsdp_accept mem (p2v (ebda_addr p2v mem + 16 * j)) = false) :
    find_rsdp p2v mem fuel = some (some (p2v (ebda_addr p2v mem + 16 * k))) := by
  obtain ⟨_, hb, hm⟩ := ebda_addr_eq p2v mem
  have h := find_rsdp_range_found p2v mem k fuel (ebda_addr p2v mem) (ebda_addr p2v mem + 1024)
    hfuel (by omega) (by omega) hlow hv
  unfold find_rsdp
  rw [if_pos he, hm, h]

theorem find_rsdp_skip_ebda (p2v : Nat → Nat) (mem : Mem) (fuel : Nat) (hfuel : 64 < fuel)
    (hno : ebda_addr p2v mem ≠ 0 →
      ∀ j, j < 64 → rsdp_accept mem (p2v (ebda_addr p2v mem + 16 * j)) = false) :
    find_rsdp p2v mem fuel = find_rsdp_range p2v mem fuel 0xE0000 0x100000 := by
  obtain ⟨_, hb, hm⟩ := ebda_addr_eq p2v mem
  by_cases he : ebda_addr p2v mem = 0
  · simp [find_rsdp, he]
  · have h := find_rsdp_range_null p2v mem 64 fuel (ebda_addr p2v mem)
      (ebda_addr p2v mem + 1024) hfuel (by omega) (by omega)
      (fun j hj => hno he j (by omega))
    unfold find_rsdp
    rw [if_pos he, hm, h]

theorem find_rsdp_rom (p2v : Nat → Nat) (mem : Mem) (fuel k : Nat) (hfuel : 64 < fuel)
    (hkf : k < fuel) (hk : k < 8192)
    (hno : ebda_addr p2v mem ≠ 0 →
      ∀ j, j < 64 → rsdp_accept mem (p2v (ebda_addr p2v mem + 16 * j)) = false)
    (hv : rsdp_accept mem (p2v (0xE0000 + 16 * k)) = true)
    (hlow : ∀ j, j < k → rsdp_accept mem (p2v (0xE0000 + 16 * j)) = false) :
    find_rsdp p2v mem fuel = some (some (p2v (0xE0000 + 16 * k))) := by
  rw [find_rsdp_skip_ebda p2v mem fuel hfuel hno]
  exact find_rsdp_range_found p2v mem k fuel 0xE0000 0x100000 hkf (by omega) (by norm_num) hlow hv

theorem find_rsdp_none (p2v : Nat → Nat) (mem : Mem) (fuel : Nat) (hfuel : 8192 < fuel)
    (hno : ebda_addr p2v mem ≠ 0 →
      ∀ j, j < 64 → rsdp_accept mem (p2v (ebda_addr p2v mem + 16 * j)) = false)
    (hrom : ∀ j, j < 8192 → rsdp_accept mem (p2v (0xE0000 + 16 * j)) = false) :
    find_rsdp p2v mem fuel = some none := by
  rw [find_rsdp_skip_ebda p2v mem fuel (by omega) hno]
  exact find_rsdp_range_null p2v mem 8192 fuel 0xE0000 0x100000 hfuel (by norm_num) (by norm_num)
    (fun j hj => hrom j (by omega))

/-- The lowest accepted index below `n`, when there is an accepted one. -/
theorem exists_lowest (f : Nat → Bool) (n : Nat) (h : ∃ k, k < n ∧ f k = true) :
    ∃ k, k < n ∧ f k = true ∧ ∀ j, j < k → f j = false := by
  classical
  have h' : ∃ k, k < n ∧ f k = true := h
  refine ⟨Nat.find h', (Nat.find_spec h').1, (Nat.find_spec h').2, fun j hj => ?_⟩
  have := Nat.find_min h' hj
  by_contra hc
  exact this ⟨lt_trans hj (Nat.find_spec h').1, by simpa using hc⟩

/-- What `find_rsdp` returns, in every case (with fuel for the longer scan):
a pointer to the lowest accepted candidate of the EBDA window, else to the
lowest accepted candidate of the ROM window, else null. -/
theorem find_rsdp_cases (p2v : Nat → Nat) (mem : Mem) (fuel : Nat) (hfuel : 8192 < fuel) :
    (∃ k, k < 64 ∧ ebda_addr p2v mem ≠ 0 ∧
        rsdp_accept mem (p2v (ebda_addr p2v mem + 16 * k)) = true ∧
        (∀ j, j < k → rsdp_accept mem (p2v (ebda_addr p2v mem + 16 * j)) = false) ∧
        find_rsdp p2v mem fuel = some (some (p2v (ebda_addr p2v mem + 16 * k)))) ∨
    (∃ k, k < 8192 ∧
        (ebda_addr p2v mem ≠ 0 →
          ∀ j, j < 64 → rsdp_accept mem (p2v (ebda_addr p2v mem + 16 * j)) = false) ∧
        rsdp_accept mem (p2v (0xE0000 + 16 * k)) = true ∧
        (∀ j, j < k → rsdp_accept mem (p2v (0xE0000 + 16 * j)) = false) ∧
        find_rsdp p2v mem fuel = some (some (p2v (0xE0000 + 16 * k)))) ∨
    ((ebda_addr p2v mem ≠ 0 →
        ∀ j, j < 64 → rsdp_accept mem (p2v (ebda_addr p2v mem + 16 * j)) = false) ∧
      (∀ j, j < 8192 → rsdp_accept mem (p2v (0xE0000 + 16 * j)) = false) ∧
      find_rsdp p2v mem fuel = some none) := by
  by_cases h1 : ebda_addr p2v mem ≠ 0 ∧
      ∃ k, k < 64 ∧ rsdp_accept mem (p2v (ebda_addr p2v mem + 16 * k)) = true
  · obtain ⟨he, hex⟩ := h1
    obtain ⟨k, hk, hv, hlow⟩ :=
      exists_lowest (fun k => rsdp_accept mem (p2v (ebda_addr p2v mem + 16 * k))) 64 hex
    exact Or.inl ⟨k, hk, he, hv, hlow, find_rsdp_ebda p2v mem fuel k (by omega) hk he hv hlow⟩
  · have hno : ebda_addr p2v mem ≠ 0 →
        ∀ j, j < 64 → rsdp_accept mem (p2v (ebda_addr p2v mem + 16 * j)) = false := by
      intro he j hj
      by_contra hc
      exact h1 ⟨he, j, hj, by simpa using hc⟩
    by_cases h2 : ∃ k, k < 8192 ∧ rsdp_accept mem (p2v (0xE0000 + 16 * k)) = true
    · obtain ⟨k, hk, hv, hlow⟩ :=
        exists_lowest (fun k => rsdp_accept mem (p2v (0xE0000 + 16 * k))) 8192 h2
      exact Or.inr (Or.inl ⟨k, hk, hno, hv, hlow,
        find_rsdp_rom p2v mem fuel k (by omega) (by omega) hk hno hv hlow⟩)
    · have hrom : ∀ j, j < 8192 → rsdp_accept mem (p2v (0xE0000 + 16 * j)) = false := by
        intro j hj
        by_contra hc
        exact h2 ⟨j, hj, by simpa using hc⟩
      exact Or.inr (Or.inr ⟨hno, hrom, find_rsdp_none p2v mem fuel hfuel hno hrom⟩)

theorem memcmp_eq_zero_iff (mem : Mem) :
    ∀ (n v : Nat) (l : List Nat),
      memcmp mem v l n = 0 ↔ ∀ i, i < n → rd8 mem (v + i) = l.getD i 0 := by
  intro n
  induction n with
  | zero => intro v l; simp [memcmp]
  | succ n ih =>
    intro v l
    have hh : l.headD 0 = l.getD 0 0 := by cases l <;> rfl
    have ht : ∀ i, l.tail.getD i 0 = l.getD (i + 1) 0 := by intro i; cases l <;> simp
    unfold memcmp
    by_cases h : rd8 mem v = l.headD 0
    · rw [if_neg (not_not.mpr h), ih]
      constructor
      · intro H i hi
        cases i with
        | zero => rw [Nat.add_zero, h, hh]
        | succ i =>
          have := H i (by omega)
          rw [ht] at this
          rw [← this]; congr 1; omega
      · intro H i hi
        rw [ht, ← H (i + 1) (by omega)]; congr 1; omega
    · rw [if_pos h]
      constructor
      · intro H; exfalso; apply h; omega
      · intro H; exfalso; apply h
        have := H 0 (by omega)
        rw [Nat.add_zero] at this
        rw [this, hh]

theorem memcmp_sig (mem : Mem) (r : Nat) (sig : String) :
    memcmp mem r (cstr sig) sig.length = 0 ↔ has_signature mem r sig :=
  memcmp_eq_zero_iff mem sig.length r (cstr sig)

/-- The three checks of the loop body of `find_rsdp_range`, spelled out. -/
theorem rsdp_accept_iff (mem : Mem) (r : Nat) :
    rsdp_accept mem r = true ↔
      has_signature mem r RSDP_SIG ∧ byte_sum mem r 20 % 256 = 0 ∧
      (2 ≤ rsdp_revision mem r →
        byte_sum mem r (toInt32 (rsdp_length mem r)).toNat % 256 = 0) := by
  have hs : memcmp mem r (cstr RSDP_SIG) 8 = 0 ↔ has_signature mem r RSDP_SIG :=
    memcmp_sig mem r RSDP_SIG
  have h20 : ((20 : Int)).toNat = 20 := rfl
  unfold rsdp_accept
  rw [acpi_checksum_eq, acpi_checksum_eq, h20]
  by_cases h1 : memcmp mem r (cstr RSDP_SIG) 8 = 0
  · have h1' := hs.mp h1
    by_cases h2 : byte_sum mem r 20 % 256 = 0
    · by_cases h3 : byte_sum mem r (toInt32 (rsdp_length mem r)).toNat % 256 = 0
      · simp [h1, h1', h2, h3]
      · simp [h1, h1', h2, h3]
    · simp [h1, h1', h2]
  · have h1' : ¬ has_signature mem r RSDP_SIG := fun h => h1 (hs.mpr h)
    simp [h1, h1']

theorem find_rsdp_range_sound (p2v : Nat → Nat) (mem : Mem) :
    ∀ (fuel start end_ r : Nat), find_rsdp_range p2v mem fuel start end_ = some (some r) →
      rsdp_accept mem r = true := by
  intro fuel
  induction fuel with
  | zero => intro start end_ r h; simp [find_rsdp_range] at h
  | succ f ih =>
    intro start end_ r h
    unfold find_rsdp_range at h
    by_cases hs : start < end_
    · by_cases ha : rsdp_accept mem (p2v start) = true
      · simp only [hs, ha, if_true, Option.some.injEq] at h
        rw [← h]; exact ha
      · simp only [hs, ha, if_true] at h
        exact ih _ _ _ h
    · simp [hs] at h

/-- The order of the search, in terms of what the loop body accepts:
`find_rsdp` scans the EBDA window `[ebda, ebda + 1024)` first, with
`ebda` 16 times the 16-bit value at `0x40E` when that is non-zero, and the ROM
window `0xE0000..0xFFFFF` second: the lowest accepted 16-byte-aligned candidate
of the EBDA window is returned whatever the ROM window holds; when the EBDA
window has none, the lowest accepted candidate of the ROM window is returned. -/
theorem find_rsdp_search_order (p2v : Nat → Nat) (mem : Mem) (fuel : Nat) (hfuel : 8192 < fuel) :
    ebda_addr p2v mem = 16 * rd16 mem (p2v 0x40E) ∧
    (∀ k, k < 64 → ebda_addr p2v mem ≠ 0 →
      rsdp_accept mem (p2v (ebda_addr p2v mem + 16 * k)) = true →
      (∀ j, j < k → rsdp_accept mem (p2v (ebda_addr p2v mem + 16 * j)) = false) →
      find_rsdp p2v mem fuel = some (some (p2v (ebda_addr p2v mem + 16 * k)))) ∧
    (∀ k, k < 8192 →
      (ebda_addr p2v mem ≠ 0 →
        ∀ j, j < 64 → rsdp_accept mem (p2v (ebda_addr p2v mem + 16 * j)) = false) →
      rsdp_accept mem (p2v (0xE0000 + 16 * k)) = true →
      (∀ j, j < k → rsdp_accept mem (p2v (0xE0000 + 16 * j)) = false) →
      find_rsdp p2v mem fuel = some (some (p2v (0xE0000 + 16 * k)))) :=
  ⟨(ebda_addr_eq p2v mem).1,
   fun k hk he hv hlow => find_rsdp_ebda p2v mem fuel k (by omega) hk he hv hlow,
   fun k hk hno hv hlow => find_rsdp_rom p2v mem fuel k (by omega) (by omega) hk hno hv hlow⟩

/-- In `mem_two_rsdp` both windows hold an accepted root pointer; the one of
the EBDA window, at `0x9FC00`, is returned. -/
theorem find_rsdp_search_order_witness :
    rsdp_accept mem_two_rsdp (id 0xE0000) = true ∧
      find_rsdp id mem_two_rsdp 8193 = some (some 0x9FC00) :=
  ⟨by decide,
   (find_rsdp_search_order id mem_two_rsdp 8193 (by decide)).2.1 0 (by decide) (by decide)
     (by decide) (fun j hj => absurd hj (Nat.not_lt_zero j))⟩

theorem rsdp_accept_first_byte (mem : Mem) (r : Nat) (h : rd8 mem r ≠ 82) :
    rsdp_accept mem r = false := by
  have hne : ¬ rsdp_accept mem r = true := by
    rw [rsdp_accept_iff]
    rintro ⟨hs, _⟩
    apply h
    have := hs 0 (by decide)
    rw [Nat.add_zero] at this
    rw [this]; decide
  simpa using hne

theorem mem_misaligned_rejects (p : Nat) (hp : p % 16 = 0) :
    rsdp_accept mem_misaligned (id p) = false := by
  apply rsdp_accept_first_byte
  by_cases h : p = 0xE0010
  · subst h; decide
  · have hz : mem_misaligned (id p) = 0 := by
      have hl : rsdp_rev0.length = 20 := rfl
      unfold mem_misaligned image
      rw [hl, if_neg (by simp only [id]; omega)]
      rfl
    show mem_misaligned (id p) % 256 ≠ 82
    rw [hz]; decide

/-- Alignment, in terms of what the loop body accepts: the structure
`find_rsdp` returns is `P2V(p)` for a `p` that is a
multiple of 16, lies in one of the two windows and is accepted; when no
multiple of 16 is accepted the result is null, wherever else a correctly
signed and checksummed structure may sit; an accepted structure at a multiple
of 16 inside a window makes the result non-null, and it is the result when it
is the only one. -/
theorem find_rsdp_aligned (p2v : Nat → Nat) (mem : Mem) (fuel : Nat) (hfuel : 8192 < fuel) :
    (∀ r, find_rsdp p2v mem fuel = some (some r) →
      ∃ p, r = p2v p ∧ p % 16 = 0 ∧ rsdp_accept mem (p2v p) = true ∧
        ((ebda_addr p2v mem ≠ 0 ∧ ebda_addr p2v mem ≤ p ∧ p < ebda_addr p2v mem + 1024) ∨
          (0xE0000 ≤ p ∧ p < 0x100000))) ∧
    ((∀ p, p % 16 = 0 → rsdp_accept mem (p2v p) = false) →
      find_rsdp p2v mem fuel = some none) ∧
    (∀ p, p % 16 = 0 →
      ((ebda_addr p2v mem ≠ 0 ∧ ebda_addr p2v mem ≤ p ∧ p < ebda_addr p2v mem + 1024) ∨
        (0xE0000 ≤ p ∧ p < 0x100000)) →
      rsdp_accept mem (p2v p) = true →
      (∃ r, find_rsdp p2v mem fuel = some (some r)) ∧
      ((∀ q, q % 16 = 0 → p2v q ≠ p2v p → rsdp_accept mem (p2v q) = false) →
        find_rsdp p2v mem fuel = some (some (p2v p)))) := by
  obtain ⟨he16, hb, _⟩ := ebda_addr_eq p2v mem
  have key : ∀ p, p % 16 = 0 →
      ((ebda_addr p2v mem ≠ 0 ∧ ebda_addr p2v mem ≤ p ∧ p < ebda_addr p2v mem + 1024) ∨
        (0xE0000 ≤ p ∧ p < 0x100000)) →
      rsdp_accept mem (p2v p) = true → find_rsdp p2v mem fuel ≠ some none := by
    intro p hp hw hv hnone
    rcases find_rsdp_cases p2v mem fuel hfuel with ⟨k, _, _, _, _, hr⟩ | ⟨k, _, _, _, _, hr⟩ |
      ⟨hno, hrom, _⟩
    · rw [hr] at hnone; simp at hnone
    · rw [hr] at hnone; simp at hnone
    · rcases hw with ⟨hne, hlo, hhi⟩ | ⟨hlo, hhi⟩
      · have := hno hne ((p - ebda_addr p2v mem) / 16) (by omega)
        rw [show ebda_addr p2v mem + 16 * ((p - ebda_addr p2v mem) / 16) = p by omega, hv] at this
        simp at this
      · have := hrom ((p - 0xE0000) / 16) (by omega)
        rw [show 0xE0000 + 16 * ((p - 0xE0000) / 16) = p by omega, hv] at this
        simp at this
  have sound : ∀ r, find_rsdp p2v mem fuel = some (some r) →
      ∃ p, r = p2v p ∧ p % 16 = 0 ∧ rsdp_accept mem (p2v p) = true ∧
        ((ebda_addr p2v mem ≠ 0 ∧ ebda_addr p2v mem ≤ p ∧ p < ebda_addr p2v mem + 1024) ∨
          (0xE0000 ≤ p ∧ p < 0x100000)) := by
    intro r hr
    rcases find_rsdp_cases p2v mem fuel hfuel with ⟨k, hk, hne, hv, _, hr'⟩ |
      ⟨k, hk, _, hv, _, hr'⟩ | ⟨_, _, hr'⟩
    · rw [hr'] at hr
      simp only [Option.some.injEq] at hr
      exact ⟨_, hr.symm, by omega, hv, Or.inl ⟨hne, by omega, by omega⟩⟩
    · rw [hr'] at hr
      simp only [Option.some.injEq] at hr
      exact ⟨_, hr.symm, by omega, hv, Or.inr ⟨by omega, by omega⟩⟩
    · rw [hr'] at hr; simp at hr
  refine ⟨sound, ?_, ?_⟩
  · intro hall
    exact find_rsdp_none p2v mem fuel hfuel (fun _ j _ => hall _ (by omega))
      (fun j _ => hall _ (by omega))
  · intro p hp hw hv
    have hne := key p hp hw hv
    have hex : ∃ r, find_rsdp p2v mem fuel = some (some r) := by
      rcases find_rsdp_cases p2v mem fuel hfuel with ⟨k, _, _, _, _, hr⟩ | ⟨k, _, _, _, _, hr⟩ |
        ⟨_, _, hr⟩
      · exact ⟨_, hr⟩
      · exact ⟨_, hr⟩
      · exact absurd hr hne
    refine ⟨hex, fun honly => ?_⟩
    obtain ⟨r, hr⟩ := hex
    obtain ⟨q, hq, hq16, hqv, _⟩ := sound r hr
    by_cases hqp : p2v q = p2v p
    · rw [hr, hq, hqp]
    · rw [honly q hq16 hqp] at hqv; simp at hqv

/-- The only root pointer of `mem_misaligned`, at `0xE0008`, is correctly
signed and checksummed, and `find_rsdp` returns null; with the same bytes at
`0xE0010` it returns that structure. -/
theorem find_rsdp_aligned_witness :
    rsdp_accept mem_misaligned (id 0xE0008) = true ∧
      find_rsdp id mem_misaligned 8193 = some none ∧
      find_rsdp id mem_aligned 8193 = some (some 0xE0010) :=
  ⟨by decide,
   (find_rsdp_aligned id mem_misaligned 8193 (by decide)).2.1 mem_misaligned_rejects,
   by decide⟩

theorem acpi_parse_madt_eq (NCPU : Nat) (mem : Mem) (fuel madt : Nat) (s : State) :
    acpi_parse_madt NCPU mem fuel madt s =
      match madt_loop NCPU mem (madt + sdth_length mem madt) fuel (madt + 44)
          ⟨madt_lapic_address mem madt, 0, s.cpus, s.ioapicid⟩ with
      | none => Outcome.timeout
      | some s3 =>
        if s3.ncpu = 0 then Outcome.halted "ACPI: no enabled CPUs" s3 else Outcome.returned s3 :=
  rfl

theorem acpi_walk_eq (p2v : Nat → Nat) (NCPU : Nat) (mem : Mem) (fuel rsdp : Nat) (s : State) :
    acpi_walk p2v NCPU mem fuel rsdp s =
      if rsdp_revision mem rsdp ≥ 2 ∧ rsdp_xsdt_address mem rsdp ≠ 0 then
        Outcome.halted "ACPI: XSDT not supported" s
      else
        match find_madt p2v mem (p2v (rsdp_rsdt_address mem rsdp))
            (rsdt_entries mem (p2v (rsdp_rsdt_address mem rsdp))).toNat 0 with
        | none => Outcome.halted "ACPI: MADT not found" s
        | some madt => acpi_parse_madt NCPU mem fuel madt s :=
  rfl

/-- The ways the tail of `acpi_init` can end. -/
theorem acpi_parse_madt_cases (NCPU : Nat) (mem : Mem) (fuel madt : Nat) (s : State) :
    acpi_parse_madt NCPU mem fuel madt s = Outcome.timeout ∨
    (∃ st, acpi_parse_madt NCPU mem fuel madt s = Outcome.halted "ACPI: no enabled CPUs" st) ∨
    (∃ st, acpi_parse_madt NCPU mem fuel madt s = Outcome.returned st) := by
  rw [acpi_parse_madt_eq]
  cases madt_loop NCPU mem (madt + sdth_length mem madt) fuel (madt + 44)
      ⟨madt_lapic_address mem madt, 0, s.cpus, s.ioapicid⟩ with
  | none => exact Or.inl rfl
  | some s3 =>
    by_cases h0 : s3.ncpu = 0
    · exact Or.inr (Or.inl ⟨s3, if_pos h0⟩)
    · exact Or.inr (Or.inr ⟨s3, if_neg h0⟩)

theorem acpi_parse_madt_ne_halted (NCPU : Nat) (mem : Mem) (fuel madt : Nat) (s st : State)
    (msg : String) (hmsg : msg ≠ "ACPI: no enabled CPUs") :
    acpi_parse_madt NCPU mem fuel madt s ≠ Outcome.halted msg st := by
  intro h
  rcases acpi_parse_madt_cases NCPU mem fuel madt s with h' | ⟨st', h'⟩ | ⟨st', h'⟩
  · rw [h'] at h; exact Outcome.noConfusion h
  · rw [h'] at h; exact hmsg ((Outcome.halted.injEq _ _ _ _).mp h).1.symm
  · rw [h'] at h; exact Outcome.noConfusion h

theorem acpi_walk_ne_rsdp_not_found (p2v : Nat → Nat) (NCPU : Nat) (mem : Mem) (fuel rsdp : Nat)
    (s st : State) :
    acpi_walk p2v NCPU mem fuel rsdp s ≠ Outcome.halted "ACPI: RSDP not found" st := by
  rw [acpi_walk_eq]
  intro h
  by_cases hx : rsdp_revision mem rsdp ≥ 2 ∧ rsdp_xsdt_address mem rsdp ≠ 0
  · rw [if_pos hx] at h
    exact absurd ((Outcome.halted.injEq _ _ _ _).mp h).1 (by decide)
  · rw [if_neg hx] at h
    cases hm : find_madt p2v mem (p2v (rsdp_rsdt_address mem rsdp))
        (rsdt_entries mem (p2v (rsdp_rsdt_address mem rsdp))).toNat 0 with
    | none =>
      rw [hm] at h
      exact absurd ((Outcome.halted.injEq _ _ _ _).mp h).1 (by decide)
    | some madt =>
      rw [hm] at h
      exact acpi_parse_madt_ne_halted NCPU mem fuel madt s st _ (by decide) h

/-- The null result, in terms of what the loop body accepts: `find_rsdp`
returns null exactly when no 16-byte-aligned candidate of
the EBDA window (there is one only when `ebda_addr` is non-zero) or of the ROM
window is accepted, and exactly then `acpi_init` halts with "ACPI: RSDP not
found", in the state it was started in: nothing is published. -/
theorem find_rsdp_null_iff (p2v : Nat → Nat) (NCPU : Nat) (mem : Mem) (fuel : Nat) (s : State)
    (hfuel : 8192 < fuel) :
    (find_rsdp p2v mem fuel = some none ↔
      (ebda_addr p2v mem ≠ 0 →
        ∀ j, j < 64 → rsdp_accept mem (p2v (ebda_addr p2v mem + 16 * j)) = false) ∧
      (∀ j, j < 8192 → rsdp_accept mem (p2v (0xE0000 + 16 * j)) = false)) ∧
    (∀ st, acpi_init p2v NCPU mem fuel s = Outcome.halted "ACPI: RSDP not found" st ↔
      find_rsdp p2v mem fuel = some none ∧ st = s) := by
  constructor
  · constructor
    · intro h
      rcases find_rsdp_cases p2v mem fuel hfuel with ⟨k, _, _, _, _, hr⟩ | ⟨k, _, _, _, _, hr⟩ |
        ⟨hno, hrom, _⟩
      · rw [hr] at h; simp at h
      · rw [hr] at h; simp at h
      · exact ⟨hno, hrom⟩
    · rintro ⟨hno, hrom⟩
      exact find_rsdp_none p2v mem fuel hfuel hno hrom
  · intro st
    unfold acpi_init
    rcases hr : find_rsdp p2v mem fuel with _ | _ | rsdp
    · exact ⟨fun h => Outcome.noConfusion h, fun h => Option.noConfusion h.1⟩
    · exact ⟨fun h => ⟨rfl, ((Outcome.halted.injEq _ _ _ _).mp h).2.symm⟩, fun h => by rw [h.2]⟩
    · exact ⟨fun h => absurd h (acpi_walk_ne_rsdp_not_found p2v NCPU mem fuel rsdp s st),
        fun h => by simp at h⟩

/-- In `mem_misaligned` no aligned candidate is accepted: `acpi_init` halts
with "ACPI: RSDP not found" and the boot state untouched. -/
theorem find_rsdp_null_iff_witness :
    acpi_init id 8 mem_misaligned 8193 boot_state =
      Outcome.halted "ACPI: RSDP not found" boot_state :=
  ((find_rsdp_null_iff id 8 mem_misaligned 8193 boot_state (by decide)).2 boot_state).mpr
    ⟨find_rsdp_none id mem_misaligned 8193 (by decide)
      (fun he => absurd (by decide) he)
      (fun j _ => mem_misaligned_rejects _ (by omega)), rfl⟩

theorem byte_sum_succ (mem : Mem) (a n : Nat) :
    byte_sum mem a (n + 1) = byte_sum mem a n + rd8 mem (a + n) := by
  simp [byte_sum, List.range_succ]

theorem byte_sum_congr (mem mem' : Mem) (a : Nat) :
    ∀ n, (∀ i, i < n → rd8 mem' (a + i) = rd8 mem (a + i)) →
      byte_sum mem' a n = byte_sum mem a n := by
  intro n
  induction n with
  | zero => intro _; rfl
  | succ n ih =>
    intro h
    rw [byte_sum_succ, byte_sum_succ, ih (fun i hi => h i (by omega)), h n (by omega)]

theorem byte_sum_tail_zero (mem : Mem) (a m : Nat) (hz : ∀ i, m ≤ i → rd8 mem (a + i) = 0) :
    ∀ n, m ≤ n → byte_sum mem a n = byte_sum mem a m := by
  intro n hn
  induction n, hn using Nat.le_induction with
  | base => rfl
  | succ n hmn ih => rw [byte_sum_succ, ih, hz n hmn, Nat.add_zero]

/-- C4: for a candidate with the signature "RSD PTR " and revision 0, the loop
body of `find_rsdp_range` accepts it exactly when its first 20 bytes sum to 0
modulo 256, so does a scan that starts at it, and the outcome is the same in
every memory that agrees with this one on those 20 bytes. -/
theorem rsdp_rev0_accept_iff (p2v : Nat → Nat) (mem : Mem) (p : Nat)
    (hsig : has_signature mem (p2v p) RSDP_SIG) (hrev : rsdp_revision mem (p2v p) = 0) :
    (rsdp_accept mem (p2v p) = true ↔ byte_sum mem (p2v p) 20 % 256 = 0) ∧
    (∀ fuel end_, 0 < fuel → p < end_ →
      (find_rsdp_range p2v mem fuel p end_ = some (some (p2v p)) ↔
        byte_sum mem (p2v p) 20 % 256 = 0)) ∧
    (∀ mem' : Mem, (∀ i, i < 20 → rd8 mem' (p2v p + i) = rd8 mem (p2v p + i)) →
      rsdp_accept mem' (p2v p) = rsdp_accept mem (p2v p)) := by
  have main : ∀ m : Mem, has_signature m (p2v p) RSDP_SIG → rsdp_revision m (p2v p) = 0 →
      (rsdp_accept m (p2v p) = true ↔ byte_sum m (p2v p) 20 % 256 = 0) := by
    intro m hs hr
    rw [rsdp_accept_iff]
    constructor
    · intro h; exact h.2.1
    · intro h; exact ⟨hs, h, fun h2 => by omega⟩
  refine ⟨main mem hsig hrev, ?_, ?_⟩
  · intro fuel end_ hf hlt
    rw [← main mem hsig hrev]
    constructor
    · intro h; exact find_rsdp_range_sound p2v mem fuel p end_ _ h
    · intro h
      obtain ⟨f, rfl⟩ : ∃ f, fuel = f + 1 := ⟨fuel - 1, by omega⟩
      simp [find_rsdp_range, hlt, h]
  · intro mem' hag
    have hs' : has_signature mem' (p2v p) RSDP_SIG := by
      intro i hi
      have h8 : RSDP_SIG.length = 8 := by decide
      rw [hag i (by omega)]; exact hsig i hi
    have hr' : rsdp_revision mem' (p2v p) = 0 := by
      unfold rsdp_revision at hrev ⊢
      rw [hag 15 (by omega)]; exact hrev
    rw [Bool.eq_iff_iff, main mem' hs' hr', main mem hsig hrev, byte_sum_congr mem mem' _ 20 hag]

/-- The root pointer at `0xE0000` of `mem_two_rsdp` has revision 0, a correct
20-byte checksum and arbitrary bytes after it: it is accepted. -/
theorem rsdp_rev0_accept_iff_witness : rsdp_accept mem_two_rsdp (id 0xE0000) = true :=
  (rsdp_rev0_accept_iff id mem_two_rsdp 0xE0000 (by decide) (by decide)).1.mpr (by decide)

/-- What the loop body of `find_rsdp_range` checks for a revision `≥ 2`
candidate whose `length` field is below `2^31`. -/
theorem rsdp_rev2_accept_iff (mem : Mem) (r : Nat) (hsig : has_signature mem r RSDP_SIG)
    (hrev : 2 ≤ rsdp_revision mem r) (hlen : rsdp_length mem r < 2 ^ 31) :
    rsdp_accept mem r = true ↔
      byte_sum mem r 20 % 256 = 0 ∧ byte_sum mem r (rsdp_length mem r) % 256 = 0 := by
  have e : (toInt32 (rsdp_length mem r)).toNat = rsdp_length mem r := by
    have h1 : rsdp_length mem r % 2 ^ 32 = rsdp_length mem r := Nat.mod_eq_of_lt (by omega)
    unfold toInt32
    rw [h1, if_pos hlen, Int.toNat_ofNat]
  rw [rsdp_accept_iff, e]
  constructor
  · intro h; exact ⟨h.2.1, h.2.2 hrev⟩
  · intro h; exact ⟨hsig, h.1, fun _ => h.2⟩

/-- What the loop body of `find_rsdp_range` checks for a revision `≥ 2`
candidate whose `length` field is `2^31` or more: the conversion to `int`
makes the second call of `acpi_checksum` sum no byte at all. -/
theorem rsdp_rev2_huge_accept_iff (mem : Mem) (r : Nat) (hsig : has_signature mem r RSDP_SIG)
    (hlen : 2 ^ 31 ≤ rsdp_length mem r) :
    rsdp_accept mem r = true ↔ byte_sum mem r 20 % 256 = 0 := by
  have hlt : rsdp_length mem r < 2 ^ 32 := by
    have h0 := rd8_lt mem (r + 20)
    have h1 := rd8_lt mem (r + 20 + 1)
    have h2 := rd8_lt mem (r + 20 + 2)
    have h3 := rd8_lt mem (r + 20 + 3)
    unfold rsdp_length rd32
    omega
  have e : (toInt32 (rsdp_length mem r)).toNat = 0 := by
    have h1 : rsdp_length mem r % 2 ^ 32 = rsdp_length mem r := Nat.mod_eq_of_lt hlt
    unfold toInt32
    rw [h1, if_neg (by omega)]
    omega
  rw [rsdp_accept_iff, e]
  constructor
  · intro h; exact h.2.1
  · intro h; exact ⟨hsig, h, fun _ => rfl⟩

/-- C5, at the root pointer of `mem_huge_length`: signature and 20-byte
checksum are right, the revision is 2, the `length` field is `0x80000000` and
the bytes of that extended region sum to 129 modulo 256, not 0; the structure
is accepted by the loop body all the same, and `find_rsdp` returns it. -/
theorem rsdp_huge_length_accepted :
    has_signature mem_huge_length 0xE0000 RSDP_SIG ∧
    rsdp_revision mem_huge_length 0xE0000 = 2 ∧
    rsdp_length mem_huge_length 0xE0000 = 0x80000000 ∧
    byte_sum mem_huge_length 0xE0000 20 % 256 = 0 ∧
    byte_sum mem_huge_length 0xE0000 (rsdp_length mem_huge_length 0xE0000) % 256 = 129 ∧
    rsdp_accept mem_huge_length 0xE0000 = true ∧
    find_rsdp id mem_huge_length 8193 = some (some 0xE0000) := by
  have hlen : rsdp_length mem_huge_length 0xE0000 = 0x80000000 := by decide
  refine ⟨by decide, by decide, hlen, by decide, ?_, by decide, by decide⟩
  have hz : ∀ i, 36 ≤ i → rd8 mem_huge_length (0xE0000 + i) = 0 := by
    intro i hi
    have hl : rsdp_rev2_huge.length = 36 := rfl
    unfold rd8 mem_huge_length image
    rw [hl, if_neg (by omega)]
    rfl
  rw [hlen, byte_sum_tail_zero mem_huge_length 0xE0000 36 hz _ (by norm_num)]
  decide

theorem memcmp_madt_sig (mem : Mem) (r : Nat) :
    memcmp mem r (cstr MADT_SIG) 4 = 0 ↔ has_signature mem r MADT_SIG :=
  memcmp_sig mem r MADT_SIG

theorem find_madt_first (p2v : Nat → Nat) (mem : Mem) (rsdt : Nat) :
    ∀ (K n i : Nat), K < n →
      has_signature mem (p2v (rsdt_entry mem rsdt (i + K))) MADT_SIG →
      (∀ j, j < K → ¬ has_signature mem (p2v (rsdt_entry mem rsdt (i + j))) MADT_SIG) →
      find_madt p2v mem rsdt n i = some (p2v (rsdt_entry mem rsdt (i + K))) := by
  intro K
  induction K with
  | zero =>
    intro n i hn hK _
    obtain ⟨m, rfl⟩ : ∃ m, n = m + 1 := ⟨n - 1, by omega⟩
    simp only [Nat.add_zero] at hK ⊢
    unfold find_madt
    rw [if_pos ((memcmp_madt_sig mem _).mpr hK)]
  | succ K ih =>
    intro n i hn hK hlow
    obtain ⟨m, rfl⟩ : ∃ m, n = m + 1 := ⟨n - 1, by omega⟩
    have h0 : ¬ memcmp mem (p2v (rsdt_entry mem rsdt i)) (cstr MADT_SIG) 4 = 0 := by
      intro h
      have := hlow 0 (by omega)
      rw [Nat.add_zero] at this
      exact this ((memcmp_madt_sig mem _).mp h)
    have e : ∀ j, i + 1 + j = i + (j + 1) := fun j => by omega
    unfold find_madt
    rw [if_neg h0, ← e K]
    apply ih m (i + 1) (by omega)
    · rw [e]; exact hK
    · intro j hj; rw [e]; exact hlow (j + 1) (by omega)

theorem find_madt_none (p2v : Nat → Nat) (mem : Mem) (rsdt : Nat) :
    ∀ (n i : Nat),
      (∀ j, j < n → ¬ has_signature mem (p2v (rsdt_entry mem rsdt (i + j))) MADT_SIG) →
      find_madt p2v mem rsdt n i = none := by
  intro n
  induction n with
  | zero => intro i _; rfl
  | succ n ih =>
    intro i hno
    have h0 : ¬ memcmp mem (p2v (rsdt_entry mem rsdt i)) (cstr MADT_SIG) 4 = 0 := by
      intro h
      have := hno 0 (by omega)
      rw [Nat.add_zero] at this
      exact this ((memcmp_madt_sig mem _).mp h)
    have e : ∀ j, i + 1 + j = i + (j + 1) := fun j => by omega
    unfold find_madt
    rw [if_neg h0]
    apply ih (i + 1)
    intro j hj; rw [e]; exact hno (j + 1) (by omega)

theorem rsdt_entries_of_le (mem : Mem) (rsdt : Nat) (h : 36 ≤ sdth_length mem rsdt) :
    rsdt_entries mem rsdt = ((sdth_length mem rsdt - 36) / 4 : Nat) := by
  have h0 := rd8_lt mem (rsdt + 4)
  have h1 := rd8_lt mem (rsdt + 4 + 1)
  have h2 := rd8_lt mem (rsdt + 4 + 2)
  have h3 := rd8_lt mem (rsdt + 4 + 3)
  have hlt : sdth_length mem rsdt < 2 ^ 32 := by unfold sdth_length rd32; omega
  have e1 : (sdth_length mem rsdt + 2 ^ 32 - sizeof_sdth) % 2 ^ 32 = sdth_length mem rsdt - 36 := by
    unfold sizeof_sdth; omega
  have e2 : (sdth_length mem rsdt - 36) / 4 % 2 ^ 32 = (sdth_length mem rsdt - 36) / 4 :=
    Nat.mod_eq_of_lt (by omega)
  unfold rsdt_entries toInt32
  rw [e1, e2, if_pos (by omega)]

theorem rsdt_entries_of_lt (mem : Mem) (rsdt : Nat) (h : sdth_length mem rsdt < 36) :
    rsdt_entries mem rsdt = ((2 ^ 32 + sdth_length mem rsdt - 36) / 4 : Nat) := by
  have e1 : (sdth_length mem rsdt + 2 ^ 32 - sizeof_sdth) % 2 ^ 32 =
      2 ^ 32 + sdth_length mem rsdt - 36 := by
    unfold sizeof_sdth; omega
  have e2 : (2 ^ 32 + sdth_length mem rsdt - 36) / 4 % 2 ^ 32 =
      (2 ^ 32 + sdth_length mem rsdt - 36) / 4 :=
    Nat.mod_eq_of_lt (by omega)
  unfold rsdt_entries toInt32
  rw [e1, e2, if_pos (by omega)]

theorem acpi_init_of_rsdp (p2v : Nat → Nat) (NCPU : Nat) (mem : Mem) (fuel rsdp : Nat)
    (s : State) (hr : find_rsdp p2v mem fuel = some (some rsdp)) :
    acpi_init p2v NCPU mem fuel s = acpi_walk p2v NCPU mem fuel rsdp s := by
  unfold acpi_init
  rw [hr]

/-- C7: with `N` the number of entries the walker examines, when `K < N` is the
lowest index whose target table starts with "APIC" the walker selects
`P2V(rsdt->entry[K])` and `acpi_init` goes on with exactly that table; when no
index below `N` has the signature (so also when `N = 0`) `acpi_init` halts
with "ACPI: MADT not found". For a declared length of at least 36, `N` is
`(length - 36) / 4`. -/
theorem walker_first_match (p2v : Nat → Nat) (NCPU : Nat) (mem : Mem) (fuel rsdp : Nat)
    (s : State) (hr : find_rsdp p2v mem fuel = some (some rsdp))
    (hx : ¬ (rsdp_revision mem rsdp ≥ 2 ∧ rsdp_xsdt_address mem rsdp ≠ 0)) :
    (∀ K, K < (rsdt_entries mem (p2v (rsdp_rsdt_address mem rsdp))).toNat →
      has_signature mem
        (p2v (rsdt_entry mem (p2v (rsdp_rsdt_address mem rsdp)) K)) MADT_SIG →
      (∀ j, j < K → ¬ has_signature mem
        (p2v (rsdt_entry mem (p2v (rsdp_rsdt_address mem rsdp)) j)) MADT_SIG) →
      find_madt p2v mem (p2v (rsdp_rsdt_address mem rsdp))
          (rsdt_entries mem (p2v (rsdp_rsdt_address mem rsdp))).toNat 0 =
        some (p2v (rsdt_entry mem (p2v (rsdp_rsdt_address mem rsdp)) K)) ∧
      acpi_init p2v NCPU mem fuel s =
        acpi_parse_madt NCPU mem fuel
          (p2v (rsdt_entry mem (p2v (rsdp_rsdt_address mem rsdp)) K)) s) ∧
    ((∀ j, j < (rsdt_entries mem (p2v (rsdp_rsdt_address mem rsdp))).toNat →
        ¬ has_signature mem
          (p2v (rsdt_entry mem (p2v (rsdp_rsdt_address mem rsdp)) j)) MADT_SIG) →
      acpi_init p2v NCPU mem fuel s = Outcome.halted "ACPI: MADT not found" s) ∧
    (36 ≤ sdth_length mem (p2v (rsdp_rsdt_address mem rsdp)) →
      (rsdt_entries mem (p2v (rsdp_rsdt_address mem rsdp))).toNat =
        (sdth_length mem (p2v (rsdp_rsdt_address mem rsdp)) - 36) / 4) := by
  refine ⟨?_, ?_, ?_⟩
  · intro K hK hsig hlow
    have hf := find_madt_first p2v mem (p2v (rsdp_rsdt_address mem rsdp)) K _ 0 hK
      (by rw [Nat.zero_add]; exact hsig) (fun j hj => by rw [Nat.zero_add]; exact hlow j hj)
    rw [Nat.zero_add] at hf
    refine ⟨hf, ?_⟩
    rw [acpi_init_of_rsdp p2v NCPU mem fuel rsdp s hr, acpi_walk_eq, if_neg hx, hf]
  · intro hno
    have hf := find_madt_none p2v mem (p2v (rsdp_rsdt_address mem rsdp)) _ 0
      (fun j hj => by rw [Nat.zero_add]; exact hno j hj)
    rw [acpi_init_of_rsdp p2v NCPU mem fuel rsdp s hr, acpi_walk_eq, if_neg hx, hf]
  · intro h
    rw [rsdt_entries_of_le mem _ h, Int.toNat_ofNat]

/-- In `mem_demo` the root table has one entry, which points to a table that
starts with "APIC": `acpi_init` parses the table at `0x2000`. -/
theorem walker_first_match_witness :
    acpi_init id 8 mem_demo 8193 boot_state = acpi_parse_madt 8 mem_demo 8193 0x2000 boot_state :=
  ((walker_first_match id 8 mem_demo 8193 0x9FC00 boot_state (by decide) (by decide)).1 0
    (by decide) (by decide) (fun j hj => absurd hj (Nat.not_lt_zero j))).2

/-- C8, at the root table of `mem_short_rsdt`, whose declared length is 32:
the entry count `acpi_init` computes is `(2^32 + 32 - 36) / 4 = 1073741823`,
not 0; the walker reads `entry[0]`, which lies outside the declared length,
finds the topology table through it, and discovery returns with CPUs 1 and 3. -/
theorem rsdt_short_entries :
    find_rsdp id mem_short_rsdt 8193 = some (some 0x9FC00) ∧
    rsdp_rsdt_address mem_short_rsdt 0x9FC00 = 0x1000 ∧
    sdth_length mem_short_rsdt 0x1000 = 32 ∧
    rsdt_entries mem_short_rsdt 0x1000 = 1073741823 ∧
    find_madt id mem_short_rsdt 0x1000 (rsdt_entries mem_short_rsdt 0x1000).toNat 0 =
      some 0x2000 ∧
    (acpi_init id 8 mem_short_rsdt 8193 boot_state).cpu_list = some [1, 3] := by
  refine ⟨by decide, by decide, by decide, by decide, by decide, by decide⟩

/-- C9: for the root pointer `find_rsdp` returns, `acpi_init` halts with "ACPI:
XSDT not supported" exactly when `revision ≥ 2` and `xsdt_address ≠ 0`,
whatever `rsdt_address` is, and it does so in the state it was started in; a
root pointer with `revision < 2` never gives that halt. -/
theorem xsdt_halt_iff (p2v : Nat → Nat) (NCPU : Nat) (mem : Mem) (fuel rsdp : Nat) (s : State)
    (hr : find_rsdp p2v mem fuel = some (some rsdp)) :
    (∀ st, acpi_init p2v NCPU mem fuel s = Outcome.halted "ACPI: XSDT not supported" st ↔
      (2 ≤ rsdp_revision mem rsdp ∧ rsdp_xsdt_address mem rsdp ≠ 0) ∧ st = s) ∧
    (rsdp_revision mem rsdp < 2 →
      ∀ st, acpi_init p2v NCPU mem fuel s ≠ Outcome.halted "ACPI: XSDT not supported" st) := by
  have main : ∀ st, acpi_init p2v NCPU mem fuel s =
      Outcome.halted "ACPI: XSDT not supported" st ↔
      (2 ≤ rsdp_revision mem rsdp ∧ rsdp_xsdt_address mem rsdp ≠ 0) ∧ st = s := by
    intro st
    rw [acpi_init_of_rsdp p2v NCPU mem fuel rsdp s hr, acpi_walk_eq]
    by_cases hx : rsdp_revision mem rsdp ≥ 2 ∧ rsdp_xsdt_address mem rsdp ≠ 0
    · rw [if_pos hx]
      exact ⟨fun h => ⟨hx, ((Outcome.halted.injEq _ _ _ _).mp h).2.symm⟩, fun h => by rw [h.2]⟩
    · rw [if_neg hx]
      refine ⟨fun h => ?_, fun h => absurd h.1 hx⟩
      exfalso
      cases hm : find_madt p2v mem (p2v (rsdp_rsdt_address mem rsdp))
          (rsdt_entries mem (p2v (rsdp_rsdt_address mem rsdp))).toNat 0 with
      | none =>
        rw [hm] at h
        exact absurd ((Outcome.halted.injEq _ _ _ _).mp h).1 (by decide)
      | some madt =>
        rw [hm] at h
        exact acpi_parse_madt_ne_halted NCPU mem fuel madt s st _ (by decide) h
  refine ⟨main, fun hlt st h => ?_⟩
  have := ((main st).mp h).1.1
  omega

/-- The root pointer of `mem_xsdt` has revision 2, `xsdt_address = 0x3000` and
`rsdt_address = 0`: `acpi_init` halts with "ACPI: XSDT not supported". -/
theorem xsdt_halt_iff_witness :
    acpi_init id 8 mem_xsdt 8193 boot_state =
      Outcome.halted "ACPI: XSDT not supported" boot_state :=
  ((xsdt_halt_iff id 8 mem_xsdt 8193 0xE0000 boot_state (by decide)).1 boot_state).mpr
    ⟨by decide, rfl⟩

theorem madt_loop_tile (NCPU : Nat) (mem : Mem) (end_ : Nat) :
    ∀ (recs : List Nat) (p fuel : Nat) (s : State),
      records_tile mem end_ p recs = true → recs.length < fuel →
      madt_loop NCPU mem end_ fuel p s = some (madt_records_fold NCPU mem recs s) := by
  intro recs
  induction recs with
  | nil =>
    intro p fuel s ht hf
    obtain ⟨f, rfl⟩ : ∃ f, fuel = f + 1 := ⟨fuel - 1, by simp at hf; omega⟩
    have hp : p = end_ := by simpa [records_tile] using ht
    unfold madt_loop
    rw [if_neg (by omega)]
    rfl
  | cons r rs ih =>
    intro p fuel s ht hf
    obtain ⟨f, rfl⟩ : ∃ f, fuel = f + 1 := ⟨fuel - 1, by simp at hf; omega⟩
    simp only [records_tile, Bool.and_eq_true, decide_eq_true_eq] at ht
    obtain ⟨⟨⟨hr, hlt⟩, _⟩, hrest⟩ := ht
    subst hr
    unfold madt_loop
    rw [if_pos hlt, ih _ f _ hrest (by simp at hf; omega)]
    rfl

theorem cpu_list_length (s : State) : s.cpu_list.length = s.ncpu := by
  simp [State.cpu_list]

theorem cpu_list_push (s : State) (v : Nat) :
    State.cpu_list { s with cpus := Function.update s.cpus s.ncpu v, ncpu := s.ncpu + 1 } =
      s.cpu_list ++ [v] := by
  simp only [State.cpu_list, List.range_succ, List.map_append, List.map_cons, List.map_nil,
    Function.update_same]
  congr 1
  apply List.map_congr_left
  intro i hi
  have : i ≠ s.ncpu := by
    have := List.mem_range.mp hi
    omega
  exact Function.update_noteq this _ _

theorem take_take_append (l m : List Nat) (n : Nat) :
    (l.take n ++ m).take n = (l ++ m).take n := by
  by_cases h : n ≤ l.length
  · rw [List.take_append_of_le_length h,
      List.take_append_of_le_length (by rw [List.length_take]; omega), List.take_take,
      Nat.min_self]
  · have e : l.take n = l := List.take_of_length_le (by omega)
    rw [e]

/-- The effect of one pass through the `switch` on the CPU list. -/
theorem madt_record_cpu_list (NCPU : Nat) (mem : Mem) (r : Nat) (s : State)
    (h : s.ncpu ≤ NCPU) :
    (madt_record NCPU mem r s).ncpu ≤ NCPU ∧
    (madt_record NCPU mem r s).cpu_list =
      (s.cpu_list ++ (if lapic_enabled mem r then [rd8 mem (r + 3)] else [])).take NCPU := by
  have hsame : s.cpu_list = (s.cpu_list ++ []).take NCPU := by
    rw [List.append_nil, List.take_of_length_le (by rw [cpu_list_length]; exact h)]
  unfold madt_record
  split
  · rename_i h0
    by_cases hf : rd32 mem (r + 4) &&& 1 ≠ 0
    · have hen : lapic_enabled mem r = true := by
        rw [Nat.and_one_is_mod] at hf
        simp only [lapic_enabled, decide_eq_true_eq]
        exact ⟨h0, by omega⟩
      rw [if_pos hf, hen, if_pos rfl]
      by_cases hn : s.ncpu < NCPU
      · rw [if_pos hn, cpu_list_push]
        refine ⟨hn, ?_⟩
        rw [List.take_of_length_le]
        rw [List.length_append, cpu_list_length]
        exact hn
      · rw [if_neg hn]
        refine ⟨h, ?_⟩
        rw [List.take_append_of_le_length (by rw [cpu_list_length]; omega),
          List.take_of_length_le (by rw [cpu_list_length]; exact h)]
    · have hen : lapic_enabled mem r = false := by
        rw [Nat.and_one_is_mod] at hf
        simp only [lapic_enabled, decide_eq_false_iff_not]
        intro hc
        exact hf (by omega)
      rw [if_neg hf, hen]
      exact ⟨h, hsame⟩
  · rename_i h1
    have hen : lapic_enabled mem r = false := by
      simp only [lapic_enabled, decide_eq_false_iff_not]
      intro hc
      omega
    rw [hen]
    exact ⟨h, hsame⟩
  · rename_i hn0 hn1
    have hen : lapic_enabled mem r = false := by
      simp only [lapic_enabled, decide_eq_false_iff_not]
      intro hc
      exact hn0 hc.1
    rw [hen]
    exact ⟨h, hsame⟩

theorem enabled_ids_cons (mem : Mem) (r : Nat) (rs : List Nat) :
    enabled_ids mem (r :: rs) =
      (if lapic_enabled mem r then [rd8 mem (r + 3)] else []) ++ enabled_ids mem rs := by
  unfold enabled_ids
  by_cases h : lapic_enabled mem r = true
  · simp [List.filter_cons, h]
  · simp [List.filter_cons, h]

/-- The CPU list after the records `recs`: the enabled ids are appended in
order, up to the capacity `NCPU`. -/
theorem madt_records_fold_cpu_list (NCPU : Nat) (mem : Mem) :
    ∀ (recs : List Nat) (s : State), s.ncpu ≤ NCPU →
      (madt_records_fold NCPU mem recs s).ncpu ≤ NCPU ∧
      (madt_records_fold NCPU mem recs s).cpu_list =
        (s.cpu_list ++ enabled_ids mem recs).take NCPU := by
  intro recs
  induction recs with
  | nil =>
    intro s h
    refine ⟨h, ?_⟩
    change s.cpu_list = List.take NCPU (s.cpu_list ++ ([] : List Nat))
    rw [List.append_nil, List.take_of_length_le (by rw [cpu_list_length]; exact h)]
  | cons r rs ih =>
    intro s h
    obtain ⟨h1, h2⟩ := madt_record_cpu_list NCPU mem r s h
    obtain ⟨h3, h4⟩ := ih (madt_record NCPU mem r s) h1
    refine ⟨h3, ?_⟩
    show (madt_records_fold NCPU mem rs (madt_record NCPU mem r s)).cpu_list = _
    rw [h4, h2, take_take_append, enabled_ids_cons, List.append_assoc]

/-- C10: when the record starts `recs` tile the body of the topology table
`acpi_init` selects (every record with a non-zero declared length, the last
one ending at table base + table length), the record loop ends and leaves in
`cpus[0..ncpu)` the `apic_id`s of the type-0 records whose `flags` have bit 0
set, in table order, cut to the first `NCPU`; `acpi_init` returns that state,
or halts with "ACPI: no enabled CPUs" when the list is empty. In `mem_demo`,
whose records are LocalAPIC(enabled, 1), LocalAPIC(disabled, 2), IOAPIC(5),
LocalAPIC(enabled, 3), the CPU list is `[1, 3]` and the I/O APIC id is 5. -/
theorem cpu_list_of_records (p2v : Nat → Nat) (NCPU : Nat) (mem : Mem) (fuel rsdp madt : Nat)
    (s : State) (recs : List Nat)
    (hr : find_rsdp p2v mem fuel = some (some rsdp))
    (hx : ¬ (rsdp_revision mem rsdp ≥ 2 ∧ rsdp_xsdt_address mem rsdp ≠ 0))
    (hm : find_madt p2v mem (p2v (rsdp_rsdt_address mem rsdp))
      (rsdt_entries mem (p2v (rsdp_rsdt_address mem rsdp))).toNat 0 = some madt)
    (ht : records_tile mem (madt + sdth_length mem madt) (madt + 44) recs = true)
    (hfuel : recs.length < fuel) :
    (∃ st, (acpi_init p2v NCPU mem fuel s).state = some st ∧
      st.ncpu = ((enabled_ids mem recs).take NCPU).length ∧
      st.cpu_list = (enabled_ids mem recs).take NCPU ∧
      acpi_init p2v NCPU mem fuel s =
        (if st.ncpu = 0 then Outcome.halted "ACPI: no enabled CPUs" st
          else Outcome.returned st)) ∧
    (acpi_init id 8 mem_demo 8193 boot_state).cpu_list = some [1, 3] ∧
    (acpi_init id 8 mem_demo 8193 boot_state).ioapicid = some 5 := by
  refine ⟨?_, by decide, by decide⟩
  have hloop := madt_loop_tile NCPU mem (madt + sdth_length mem madt) recs (madt + 44) fuel
    ⟨madt_lapic_address mem madt, 0, s.cpus, s.ioapicid⟩ ht hfuel
  obtain ⟨_, hcl⟩ := madt_records_fold_cpu_list NCPU mem recs
    ⟨madt_lapic_address mem madt, 0, s.cpus, s.ioapicid⟩ (Nat.zero_le _)
  have hnil : State.cpu_list ⟨madt_lapic_address mem madt, 0, s.cpus, s.ioapicid⟩ = [] := rfl
  rw [hnil, List.nil_append] at hcl
  have hinit : acpi_init p2v NCPU mem fuel s =
      (if (madt_records_fold NCPU mem recs
            ⟨madt_lapic_address mem madt, 0, s.cpus, s.ioapicid⟩).ncpu = 0 then
          Outcome.halted "ACPI: no enabled CPUs"
            (madt_records_fold NCPU mem recs
              ⟨madt_lapic_address mem madt, 0, s.cpus, s.ioapicid⟩)
        else Outcome.returned (madt_records_fold NCPU mem recs
          ⟨madt_lapic_address mem madt, 0, s.cpus, s.ioapicid⟩)) := by
    rw [acpi_init_of_rsdp p2v NCPU mem fuel rsdp s hr, acpi_walk_eq, if_neg hx, hm]
    change acpi_parse_madt NCPU mem fuel madt s = _
    rw [acpi_parse_madt_eq, hloop]
  refine ⟨madt_records_fold NCPU mem recs ⟨madt_lapic_address mem madt, 0, s.cpus, s.ioapicid⟩,
    ?_, ?_, hcl, hinit⟩
  · rw [hinit]
    split <;> rfl
  · rw [← hcl, cpu_list_length]

/-- The four records of `mem_demo` start at `0x202C`, `0x2034`, `0x203C` and
`0x2048`: the run ends with `ncpu = 2` and the CPU list `[1, 3]`. -/
theorem cpu_list_of_records_witness :
    ∃ st, (acpi_init id 8 mem_demo 8193 boot_state).state = some st ∧
      st.ncpu = 2 ∧ st.cpu_list = [1, 3] ∧
      acpi_init id 8 mem_demo 8193 boot_state =
        (if st.ncpu = 0 then Outcome.halted "ACPI: no enabled CPUs" st
          else Outcome.returned st) :=
  (cpu_list_of_records id 8 mem_demo 8193 0x9FC00 0x2000 boot_state
    [0x202C, 0x2034, 0x203C, 0x2048] (by decide) (by decide) (by decide) (by decide)
    (by decide)).1

theorem records_tile_cover (mem : Mem) (end_ : Nat) :
    ∀ (recs : List Nat) (p : Nat),
      records_tile mem end_ p recs = true → records_cover mem end_ p recs = true := by
  intro recs
  induction recs with
  | nil =>
    intro p h
    have hp : p = end_ := by simpa [records_tile] using h
    simp [records_cover, hp]
  | cons r rs ih =>
    intro p h
    simp only [records_tile, Bool.and_eq_true, decide_eq_true_eq] at h
    simp only [records_cover, Bool.and_eq_true, decide_eq_true_eq]
    exact ⟨h.1, ih _ h.2⟩

theorem madt_loop_cover (NCPU : Nat) (mem : Mem) (end_ : Nat) :
    ∀ (recs : List Nat) (p fuel : Nat) (s : State),
      records_cover mem end_ p recs = true → recs.length < fuel →
      madt_loop NCPU mem end_ fuel p s = some (madt_records_fold NCPU mem recs s) := by
  intro recs
  induction recs with
  | nil =>
    intro p fuel s ht hf
    obtain ⟨f, rfl⟩ : ∃ f, fuel = f + 1 := ⟨fuel - 1, by simp at hf; omega⟩
    have hp : ¬ p < end_ := by simpa [records_cover] using ht
    unfold madt_loop
    rw [if_neg hp]
    rfl
  | cons r rs ih =>
    intro p fuel s ht hf
    obtain ⟨f, rfl⟩ : ∃ f, fuel = f + 1 := ⟨fuel - 1, by simp at hf; omega⟩
    simp only [records_cover, Bool.and_eq_true, decide_eq_true_eq] at ht
    obtain ⟨⟨⟨hr, hlt⟩, _⟩, hrest⟩ := ht
    subst hr
    unfold madt_loop
    rw [if_pos hlt, ih _ f _ hrest (by simp at hf; omega)]
    rfl

/-- The `switch` of the record loop, as a case distinction on the fields it reads. -/
theorem madt_record_eq (NCPU : Nat) (mem : Mem) (r : Nat) (s : State) :
    madt_record NCPU mem r s =
      if rd8 mem r = 0 then
        if rd32 mem (r + 4) % 2 = 1 ∧ s.ncpu < NCPU then
          { s with cpus := Function.update s.cpus s.ncpu (rd8 mem (r + 3)), ncpu := s.ncpu + 1 }
        else s
      else if rd8 mem r = 1 then { s with ioapicid := rd8 mem (r + 2) }
      else s := by
  unfold madt_record
  split
  · rename_i h0
    rw [if_pos h0, Nat.and_one_is_mod]
    by_cases hf : rd32 mem (r + 4) % 2 = 1
    · rw [if_pos (by omega)]
      by_cases hn : s.ncpu < NCPU
      · rw [if_pos hn, if_pos ⟨hf, hn⟩]
      · rw [if_neg hn, if_neg (fun h => hn h.2)]
    · rw [if_neg (by omega), if_neg (fun h => hf h.1)]
  · rename_i h1
    rw [if_neg (by omega), if_pos h1]
  · rename_i hn0 hn1
    rw [if_neg hn0, if_neg hn1]

theorem madt_record_frame (NCPU : Nat) (mem : Mem) (r : Nat) (s : State) :
    (madt_record NCPU mem r s).lapic = s.lapic ∧
    (∀ i, NCPU ≤ i → (madt_record NCPU mem r s).cpus i = s.cpus i) ∧
    (madt_record NCPU mem r s).ioapicid =
      (if rd8 mem r = 1 then rd8 mem (r + 2) else s.ioapicid) := by
  rw [madt_record_eq]
  by_cases h0 : rd8 mem r = 0
  · have h1 : ¬ rd8 mem r = 1 := by omega
    rw [if_pos h0, if_neg h1]
    by_cases hc : rd32 mem (r + 4) % 2 = 1 ∧ s.ncpu < NCPU
    · rw [if_pos hc]
      refine ⟨rfl, fun i hi => ?_, rfl⟩
      exact Function.update_noteq (by omega) _ _
    · rw [if_neg hc]
      exact ⟨rfl, fun _ _ => rfl, rfl⟩
  · rw [if_neg h0]
    by_cases h1 : rd8 mem r = 1
    · rw [if_pos h1, if_pos h1]
      exact ⟨rfl, fun _ _ => rfl, rfl⟩
    · rw [if_neg h1, if_neg h1]
      exact ⟨rfl, fun _ _ => rfl, rfl⟩

theorem madt_record_skip (NCPU : Nat) (mem : Mem) (r : Nat) (s : State) (h : 2 ≤ rd8 mem r) :
    madt_record NCPU mem r s = s := by
  rw [madt_record_eq, if_neg (by omega), if_neg (by omega)]

theorem madt_records_fold_cons (NCPU : Nat) (mem : Mem) (r : Nat) (rs : List Nat) (s : State) :
    madt_records_fold NCPU mem (r :: rs) s =
      madt_records_fold NCPU mem rs (madt_record NCPU mem r s) := rfl

theorem ioapic_ids_cons (mem : Mem) (r : Nat) (rs : List Nat) :
    ioapic_ids mem (r :: rs) =
      (if rd8 mem r = 1 then [rd8 mem (r + 2)] else []) ++ ioapic_ids mem rs := by
  unfold ioapic_ids
  by_cases h : rd8 mem r = 1
  · simp [List.filter_cons, h]
  · simp [List.filter_cons, h]

/-- What the records `recs` leave outside the CPU list: `lapic` and the
entries `cpus[i]`, `i ≥ NCPU`, are untouched, and `ioapicid` is the
`ioapic_id` of the last type-1 record, or unchanged when there is none. -/
theorem madt_records_fold_frame (NCPU : Nat) (mem : Mem) :
    ∀ (recs : List Nat) (s : State),
      (madt_records_fold NCPU mem recs s).lapic = s.lapic ∧
      (∀ i, NCPU ≤ i → (madt_records_fold NCPU mem recs s).cpus i = s.cpus i) ∧
      (madt_records_fold NCPU mem recs s).ioapicid =
        (ioapic_ids mem recs).getLast?.getD s.ioapicid := by
  intro recs
  induction recs with
  | nil => intro s; exact ⟨rfl, fun _ _ => rfl, rfl⟩
  | cons r rs ih =>
    intro s
    obtain ⟨h1, h2, h3⟩ := ih (madt_record NCPU mem r s)
    obtain ⟨g1, g2, g3⟩ := madt_record_frame NCPU mem r s
    rw [madt_records_fold_cons]
    refine ⟨h1.trans g1, fun i hi => (h2 i hi).trans (g2 i hi), ?_⟩
    rw [h3, g3, ioapic_ids_cons]
    by_cases ht : rd8 mem r = 1
    · rw [if_pos ht, if_pos ht, List.singleton_append, List.getLast?_cons]
      rfl
    · rw [if_neg ht, if_neg ht, List.nil_append]

/-- What every terminating run of the record loop preserves, whatever the
records are. -/
theorem madt_loop_inv (NCPU : Nat) (mem : Mem) (end_ : Nat) :
    ∀ (fuel p : Nat) (s st : State), madt_loop NCPU mem end_ fuel p s = some st →
      st.lapic = s.lapic ∧ (s.ncpu ≤ NCPU → st.ncpu ≤ NCPU) ∧
      (∀ i, NCPU ≤ i → st.cpus i = s.cpus i) := by
  intro fuel
  induction fuel with
  | zero => intro p s st h; simp [madt_loop] at h
  | succ f ih =>
    intro p s st h
    unfold madt_loop at h
    by_cases hp : p < end_
    · rw [if_pos hp] at h
      obtain ⟨h1, h2, h3⟩ := ih _ _ _ h
      obtain ⟨g1, g2, _⟩ := madt_record_frame NCPU mem p s
      refine ⟨h1.trans g1, fun hn => h2 ?_, fun i hi => (h3 i hi).trans (g2 i hi)⟩
      exact (madt_record_cpu_list NCPU mem p s hn).1
    · rw [if_neg hp] at h
      have e : s = st := Option.some.inj h
      subst e
      exact ⟨rfl, fun hn => hn, fun _ _ => rfl⟩

theorem acpi_init_of_madt (p2v : Nat → Nat) (NCPU : Nat) (mem : Mem) (fuel rsdp madt : Nat)
    (s : State) (hr : find_rsdp p2v mem fuel = some (some rsdp))
    (hx : ¬ (rsdp_revision mem rsdp ≥ 2 ∧ rsdp_xsdt_address mem rsdp ≠ 0))
    (hm : find_madt p2v mem (p2v (rsdp_rsdt_address mem rsdp))
      (rsdt_entries mem (p2v (rsdp_rsdt_address mem rsdp))).toNat 0 = some madt) :
    acpi_init p2v NCPU mem fuel s = acpi_parse_madt NCPU mem fuel madt s := by
  rw [acpi_init_of_rsdp p2v NCPU mem fuel rsdp s hr, acpi_walk_eq, if_neg hx, hm]

/-- The tail of `acpi_init` on a table whose records are `recs`. -/
theorem acpi_parse_madt_of_cover (NCPU : Nat) (mem : Mem) (fuel madt : Nat) (s : State)
    (recs : List Nat)
    (hc : records_cover mem (madt + sdth_length mem madt) (madt + 44) recs = true)
    (hfuel : recs.length < fuel) :
    acpi_parse_madt NCPU mem fuel madt s =
      (if (madt_records_fold NCPU mem recs
            ⟨madt_lapic_address mem madt, 0, s.cpus, s.ioapicid⟩).ncpu = 0 then
          Outcome.halted "ACPI: no enabled CPUs"
            (madt_records_fold NCPU mem recs
              ⟨madt_lapic_address mem madt, 0, s.cpus, s.ioapicid⟩)
        else Outcome.returned (madt_records_fold NCPU mem recs
          ⟨madt_lapic_address mem madt, 0, s.cpus, s.ioapicid⟩)) := by
  rw [acpi_parse_madt_eq, madt_loop_cover NCPU mem _ recs _ fuel _ hc hfuel]

/-- The CPU list the records `recs` produce from the state in which the
record loop is entered. -/
theorem madt_records_fold_start (NCPU : Nat) (mem : Mem) (recs : List Nat) (l io : Nat)
    (cpus : Nat → Nat) :
    (madt_records_fold NCPU mem recs ⟨l, 0, cpus, io⟩).cpu_list =
        (enabled_ids mem recs).take NCPU ∧
    (madt_records_fold NCPU mem recs ⟨l, 0, cpus, io⟩).ncpu =
        min NCPU (enabled_ids mem recs).length := by
  obtain ⟨_, hcl⟩ := madt_records_fold_cpu_list NCPU mem recs ⟨l, 0, cpus, io⟩ (Nat.zero_le _)
  have hnil : State.cpu_list ⟨l, 0, cpus, io⟩ = [] := rfl
  rw [hnil, List.nil_append] at hcl
  refine ⟨hcl, ?_⟩
  rw [← cpu_list_length, hcl, List.length_take]

/-- A run of `acpi_init` that gets past the record loop went through a root
pointer, a topology table and a terminating run of the loop. -/
theorem acpi_init_parsed (p2v : Nat → Nat) (NCPU : Nat) (mem : Mem) (fuel : Nat) (s st : State)
    (h : acpi_init p2v NCPU mem fuel s = Outcome.returned st ∨
      acpi_init p2v NCPU mem fuel s = Outcome.halted "ACPI: no enabled CPUs" st) :
    ∃ rsdp madt, find_rsdp p2v mem fuel = some (some rsdp) ∧
      ¬ (rsdp_revision mem rsdp ≥ 2 ∧ rsdp_xsdt_address mem rsdp ≠ 0) ∧
      find_madt p2v mem (p2v (rsdp_rsdt_address mem rsdp))
        (rsdt_entries mem (p2v (rsdp_rsdt_address mem rsdp))).toNat 0 = some madt ∧
      madt_loop NCPU mem (madt + sdth_length mem madt) fuel (madt + 44)
        ⟨madt_lapic_address mem madt, 0, s.cpus, s.ioapicid⟩ = some st ∧
      (acpi_init p2v NCPU mem fuel s = Outcome.returned st ↔ st.ncpu ≠ 0) := by
  unfold acpi_init at h ⊢
  rcases hr : find_rsdp p2v mem fuel with _ | _ | rsdp
  · rw [hr] at h
    rcases h with h | h <;> exact Outcome.noConfusion h
  · rw [hr] at h
    rcases h with h | h
    · exact Outcome.noConfusion h
    · exact absurd ((Outcome.halted.injEq _ _ _ _).mp h).1 (by decide)
  · rw [hr] at h
    change acpi_walk p2v NCPU mem fuel rsdp s = _ ∨ acpi_walk p2v NCPU mem fuel rsdp s = _ at h
    change ∃ rsdp' madt, some (some rsdp) = some (some rsdp') ∧ _ ∧ _ ∧ _ ∧
      (acpi_walk p2v NCPU mem fuel rsdp s = Outcome.returned st ↔ st.ncpu ≠ 0)
    rw [acpi_walk_eq] at h ⊢
    by_cases hx : rsdp_revision mem rsdp ≥ 2 ∧ rsdp_xsdt_address mem rsdp ≠ 0
    · rw [if_pos hx] at h
      rcases h with h | h
      · exact Outcome.noConfusion h
      · exact absurd ((Outcome.halted.injEq _ _ _ _).mp h).1 (by decide)
    · rw [if_neg hx] at h ⊢
      cases hm : find_madt p2v mem (p2v (rsdp_rsdt_address mem rsdp))
          (rsdt_entries mem (p2v (rsdp_rsdt_address mem rsdp))).toNat 0 with
      | none =>
        rw [hm] at h
        rcases h with h | h
        · exact Outcome.noConfusion h
        · exact absurd ((Outcome.halted.injEq _ _ _ _).mp h).1 (by decide)
      | some madt =>
        rw [hm] at h
        change acpi_parse_madt NCPU mem fuel madt s = _ ∨
          acpi_parse_madt NCPU mem fuel madt s = _ at h
        refine ⟨rsdp, madt, rfl, hx, hm, ?_⟩
        change _ ∧ (acpi_parse_madt NCPU mem fuel madt s = Outcome.returned st ↔ st.ncpu ≠ 0)
        rw [acpi_parse_madt_eq] at h ⊢
        cases hl : madt_loop NCPU mem (madt + sdth_length mem madt) fuel (madt + 44)
            ⟨madt_lapic_address mem madt, 0, s.cpus, s.ioapicid⟩ with
        | none =>
          rw [hl] at h
          rcases h with h | h <;> exact Outcome.noConfusion h
        | some s3 =>
          rw [hl] at h
          change (if s3.ncpu = 0 then _ else _) = _ ∨ (if s3.ncpu = 0 then _ else _) = _ at h
          change _ ∧ ((if s3.ncpu = 0 then _ else _) = Outcome.returned st ↔ st.ncpu ≠ 0)
          by_cases h0 : s3.ncpu = 0
          · rw [if_pos h0] at h ⊢
            rcases h with h | h
            · exact Outcome.noConfusion h
            · have e : s3 = st := ((Outcome.halted.injEq _ _ _ _).mp h).2
              subst e
              exact ⟨rfl, fun h' => Outcome.noConfusion h', fun h' => absurd h0 h'⟩
          · rw [if_neg h0] at h ⊢
            rcases h with h | h
            · have e : s3 = st := (Outcome.returned.injEq _ _).mp h
              subst e
              exact ⟨rfl, fun _ => h0, fun _ => rfl⟩
            · exact Outcome.noConfusion h

/-- C11: on a table with more enabled Local APIC records than `NCPU` (a
positive capacity), `acpi_init` returns with `ncpu = NCPU` and the CPU list
made of the first `NCPU` enabled ids in order; no pass through the `switch`
stores to `cpus[i]` with `i ≥ NCPU`, so those entries are as before; and every
run that gets past the record loop, on any memory, ends with `ncpu ≤ NCPU`. -/
theorem ncpu_capped (p2v : Nat → Nat) (NCPU : Nat) (mem : Mem) (fuel rsdp madt : Nat)
    (s : State) (recs : List Nat)
    (hr : find_rsdp p2v mem fuel = some (some rsdp))
    (hx : ¬ (rsdp_revision mem rsdp ≥ 2 ∧ rsdp_xsdt_address mem rsdp ≠ 0))
    (hm : find_madt p2v mem (p2v (rsdp_rsdt_address mem rsdp))
      (rsdt_entries mem (p2v (rsdp_rsdt_address mem rsdp))).toNat 0 = some madt)
    (hc : records_cover mem (madt + sdth_length mem madt) (madt + 44) recs = true)
    (hfuel : recs.length < fuel) (hN : 0 < NCPU)
    (hmore : NCPU < (enabled_ids mem recs).length) :
    (∃ st, acpi_init p2v NCPU mem fuel s = Outcome.returned st ∧ st.ncpu = NCPU ∧
      st.cpu_list = (enabled_ids mem recs).take NCPU ∧
      (∀ i, NCPU ≤ i → st.cpus i = s.cpus i)) ∧
    (∀ (r : Nat) (s0 : State) (i : Nat), NCPU ≤ i →
      (madt_record NCPU mem r s0).cpus i = s0.cpus i) ∧
    (∀ (q : Nat → Nat) (N : Nat) (m : Mem) (f : Nat) (s0 st : State),
      (acpi_init q N m f s0 = Outcome.returned st ∨
        acpi_init q N m f s0 = Outcome.halted "ACPI: no enabled CPUs" st) →
      st.ncpu ≤ N) := by
  refine ⟨?_, fun r s0 i hi => (madt_record_frame NCPU mem r s0).2.1 i hi, ?_⟩
  · obtain ⟨hcl, hn⟩ := madt_records_fold_start NCPU mem recs (madt_lapic_address mem madt)
      s.ioapicid s.cpus
    have hn' : (madt_records_fold NCPU mem recs
        ⟨madt_lapic_address mem madt, 0, s.cpus, s.ioapicid⟩).ncpu = NCPU := by
      rw [hn]; omega
    refine ⟨_, ?_, hn', hcl, fun i hi => ?_⟩
    · rw [acpi_init_of_madt p2v NCPU mem fuel rsdp madt s hr hx hm,
        acpi_parse_madt_of_cover NCPU mem fuel madt s recs hc hfuel, if_neg (by rw [hn']; omega)]
    · exact (madt_records_fold_frame NCPU mem recs _).2.1 i hi
  · intro q N m f s0 st h
    obtain ⟨_, md, _, _, _, hl, _⟩ := acpi_init_parsed q N m f s0 st h
    exact (madt_loop_inv N m _ f _ _ st hl).2.1 (Nat.zero_le _)

/-- With `NCPU = 1` the table of `mem_demo` has more enabled records (ids 1
and 3) than capacity: the run returns with `ncpu = 1` and the CPU list `[1]`. -/
theorem ncpu_capped_witness :
    ∃ st, acpi_init id 1 mem_demo 8193 boot_state = Outcome.returned st ∧ st.ncpu = 1 ∧
      st.cpu_list = [1] ∧ (∀ i, 1 ≤ i → st.cpus i = boot_state.cpus i) :=
  (ncpu_capped id 1 mem_demo 8193 0x9FC00 0x2000 boot_state
    [0x202C, 0x2034, 0x203C, 0x2048] (by decide) (by decide) (by decide) (by decide)
    (by decide) (by decide) (by decide)).1

theorem enabled_ids_drop_ioapic (mem : Mem) (recs : List Nat) :
    enabled_ids mem (recs.filter (fun r => decide (rd8 mem r ≠ 1))) = enabled_ids mem recs := by
  unfold enabled_ids
  rw [List.filter_filter]
  congr 1
  apply List.filter_congr
  intro r _
  by_cases h : lapic_enabled mem r = true
  · have h0 : rd8 mem r = 0 := by
      simp only [lapic_enabled, decide_eq_true_eq] at h
      exact h.1
    simp [h, h0]
  · simp [h]

/-- C12: on a table with at least one type-1 record, the run ends with
`ioapicid` equal to the `ioapic_id` of the last type-1 record in table order;
the CPU list is the one the records give with every type-1 record left out,
and the run returns unless that list is empty, in which case the halt is
"ACPI: no enabled CPUs". -/
theorem ioapic_last_wins (p2v : Nat → Nat) (NCPU : Nat) (mem : Mem) (fuel rsdp madt : Nat)
    (s : State) (recs : List Nat)
    (hr : find_rsdp p2v mem fuel = some (some rsdp))
    (hx : ¬ (rsdp_revision mem rsdp ≥ 2 ∧ rsdp_xsdt_address mem rsdp ≠ 0))
    (hm : find_madt p2v mem (p2v (rsdp_rsdt_address mem rsdp))
      (rsdt_entries mem (p2v (rsdp_rsdt_address mem rsdp))).toNat 0 = some madt)
    (hc : records_cover mem (madt + sdth_length mem madt) (madt + 44) recs = true)
    (hfuel : recs.length < fuel) (hone : ioapic_ids mem recs ≠ []) :
    ∃ st, (acpi_init p2v NCPU mem fuel s).state = some st ∧
      (ioapic_ids mem recs).getLast? = some st.ioapicid ∧
      st.cpu_list = (enabled_ids mem recs).take NCPU ∧
      st.cpu_list =
        (enabled_ids mem (recs.filter (fun r => decide (rd8 mem r ≠ 1)))).take NCPU ∧
      acpi_init p2v NCPU mem fuel s =
        (if st.cpu_list = [] then Outcome.halted "ACPI: no enabled CPUs" st
          else Outcome.returned st) := by
  obtain ⟨hcl, _⟩ := madt_records_fold_start NCPU mem recs (madt_lapic_address mem madt)
    s.ioapicid s.cpus
  obtain ⟨_, _, hio⟩ := madt_records_fold_frame NCPU mem recs
    ⟨madt_lapic_address mem madt, 0, s.cpus, s.ioapicid⟩
  have hinit := (acpi_init_of_madt p2v NCPU mem fuel rsdp madt s hr hx hm).trans
    (acpi_parse_madt_of_cover NCPU mem fuel madt s recs hc hfuel)
  have hz : ∀ t : State, (t.cpu_list = [] ↔ t.ncpu = 0) := by
    intro t
    rw [← cpu_list_length, List.length_eq_zero]
  refine ⟨_, ?_, ?_, hcl, ?_, ?_⟩
  · rw [hinit]
    split <;> rfl
  · rw [hio]
    cases hl : (ioapic_ids mem recs).getLast? with
    | none => exact absurd (List.getLast?_eq_none_iff.mp hl) hone
    | some v => rfl
  · rw [enabled_ids_drop_ioapic]; exact hcl
  · rw [hinit]
    by_cases h0 : (madt_records_fold NCPU mem recs
        ⟨madt_lapic_address mem madt, 0, s.cpus, s.ioapicid⟩).ncpu = 0
    · rw [if_pos h0, if_pos ((hz _).mpr h0)]
    · rw [if_neg h0, if_neg (fun h => h0 ((hz _).mp h))]

/-- The table of `mem_two_ioapic` has the I/O APIC records 5 and 9 around an
enabled Local APIC: the run returns with `ioapicid = 9` and the CPU list `[1]`. -/
theorem ioapic_last_wins_witness :
    ∃ st, (acpi_init id 8 mem_two_ioapic 8193 boot_state).state = some st ∧
      st.ioapicid = 9 ∧ st.cpu_list = [1] :=
  let ⟨st, h1, h2, h3, _, _⟩ := ioapic_last_wins id 8 mem_two_ioapic 8193 0x9FC00 0x2000
    boot_state [0x202C, 0x2038, 0x2040, 0x204A] (by decide) (by decide) (by decide)
    (by decide) (by decide) (by decide)
  ⟨st, h1, (Option.some.inj h2).symm, h3⟩

/-- C13: on a table whose records hold no enabled Local APIC (no type-0
record, or only ones with bit 0 of `flags` clear, or no record at all)
`acpi_init` halts with "ACPI: no enabled CPUs"; and whenever `acpi_init`
returns, on any memory, `1 ≤ ncpu ≤ NCPU`. -/
theorem no_enabled_cpus (p2v : Nat → Nat) (NCPU : Nat) (mem : Mem) (fuel rsdp madt : Nat)
    (s : State) (recs : List Nat)
    (hr : find_rsdp p2v mem fuel = some (some rsdp))
    (hx : ¬ (rsdp_revision mem rsdp ≥ 2 ∧ rsdp_xsdt_address mem rsdp ≠ 0))
    (hm : find_madt p2v mem (p2v (rsdp_rsdt_address mem rsdp))
      (rsdt_entries mem (p2v (rsdp_rsdt_address mem rsdp))).toNat 0 = some madt)
    (hc : records_cover mem (madt + sdth_length mem madt) (madt + 44) recs = true)
    (hfuel : recs.length < fuel) (hnone : enabled_ids mem recs = []) :
    (∃ st, acpi_init p2v NCPU mem fuel s = Outcome.halted "ACPI: no enabled CPUs" st ∧
      st.ncpu = 0) ∧
    (∀ (q : Nat → Nat) (N : Nat) (m : Mem) (f : Nat) (s0 st : State),
      acpi_init q N m f s0 = Outcome.returned st → 1 ≤ st.ncpu ∧ st.ncpu ≤ N) := by
  constructor
  · obtain ⟨_, hn⟩ := madt_records_fold_start NCPU mem recs (madt_lapic_address mem madt)
      s.ioapicid s.cpus
    have hn' : (madt_records_fold NCPU mem recs
        ⟨madt_lapic_address mem madt, 0, s.cpus, s.ioapicid⟩).ncpu = 0 := by
      rw [hn, hnone]; simp
    refine ⟨_, ?_, hn'⟩
    rw [acpi_init_of_madt p2v NCPU mem fuel rsdp madt s hr hx hm,
      acpi_parse_madt_of_cover NCPU mem fuel madt s recs hc hfuel, if_pos hn']
  · intro q N m f s0 st h
    obtain ⟨_, md, _, _, _, hl, hiff⟩ := acpi_init_parsed q N m f s0 st (Or.inl h)
    have h1 := hiff.mp h
    exact ⟨by omega, (madt_loop_inv N m _ f _ _ st hl).2.1 (Nat.zero_le _)⟩

/-- The only Local APIC record of `mem_no_cpu` is disabled: the run halts with
"ACPI: no enabled CPUs". -/
theorem no_enabled_cpus_witness :
    ∃ st, acpi_init id 8 mem_no_cpu 8193 boot_state =
      Outcome.halted "ACPI: no enabled CPUs" st ∧ st.ncpu = 0 :=
  (no_enabled_cpus id 8 mem_no_cpu 8193 0x9FC00 0x2000 boot_state [0x202C, 0x2034]
    (by decide) (by decide) (by decide) (by decide) (by decide) (by decide)).1

theorem madt_loop_stuck (NCPU : Nat) (mem : Mem) (end_ p : Nat) (hp : p < end_)
    (hz : rd8 mem (p + 1) = 0) :
    ∀ (fuel : Nat) (s : State), madt_loop NCPU mem end_ fuel p s = none := by
  intro fuel
  induction fuel with
  | zero => intro s; rfl
  | succ f ih =>
    intro s
    unfold madt_loop
    rw [if_pos hp, hz, Nat.add_zero]
    exact ih _

/-- When the cursor of the record loop reaches, inside the table, a record
whose declared length is 0, the loop is still running after any number of
iterations. -/
theorem madt_loop_reach_zero (NCPU : Nat) (mem : Mem) (end_ : Nat) :
    ∀ (i p : Nat), (∀ j, j ≤ i → madt_cursor mem p j < end_) →
      rd8 mem (madt_cursor mem p i + 1) = 0 →
      ∀ (fuel : Nat) (s : State), madt_loop NCPU mem end_ fuel p s = none := by
  intro i
  induction i with
  | zero =>
    intro p hin hz
    exact madt_loop_stuck NCPU mem end_ p (hin 0 (Nat.le_refl _)) hz
  | succ i ih =>
    intro p hin hz fuel s
    cases fuel with
    | zero => rfl
    | succ f =>
      have hp : p < end_ := hin 0 (Nat.zero_le _)
      unfold madt_loop
      rw [if_pos hp]
      exact ih (p + rd8 mem (p + 1)) (fun j hj => hin (j + 1) (by omega)) hz f _

/-- C14, on the table of `mem_zero_len`, whose second record, at `0x2034`
inside the declared length 56, has the declared length 0: the record loop
never ends, so for every amount of fuel `acpi_init` is still running; it
neither halts with a diagnostic nor returns. -/
theorem zero_length_record_hangs :
    sdth_length mem_zero_len 0x2000 = 56 ∧
    madt_cursor mem_zero_len (0x2000 + 44) 1 = 0x2034 ∧
    rd8 mem_zero_len (0x2034 + 1) = 0 ∧
    (∀ fuel s, madt_loop 8 mem_zero_len (0x2000 + 56) fuel (0x2000 + 44) s = none) ∧
    (∀ fuel, acpi_init id 8 mem_zero_len fuel boot_state = Outcome.timeout) := by
  have hloop : ∀ fuel s, madt_loop 8 mem_zero_len (0x2000 + 56) fuel (0x2000 + 44) s = none :=
    madt_loop_reach_zero 8 mem_zero_len (0x2000 + 56) 1 (0x2000 + 44) (by decide) (by decide)
  refine ⟨by decide, by decide, by decide, hloop, ?_⟩
  intro fuel
  cases fuel with
  | zero => rfl
  | succ f =>
    have hr : find_rsdp id mem_zero_len (f + 1) = some (some 0x9FC00) :=
      find_rsdp_ebda id mem_zero_len (f + 1) 0 (by omega) (by decide) (by decide) (by decide)
        (fun j hj => absurd hj (Nat.not_lt_zero j))
    have hlen : sdth_length mem_zero_len 0x2000 = 56 := by decide
    rw [acpi_init_of_madt id 8 mem_zero_len (f + 1) 0x9FC00 0x2000 boot_state hr (by decide)
      (by decide), acpi_parse_madt_eq, hlen, hloop]

theorem outcome_state_ite (c : Prop) [Decidable c] (msg : String) (st : State) :
    (if c then Outcome.halted msg st else Outcome.returned st).state = some st := by
  split <;> rfl

/-- C15: once `acpi_init` has found a topology table, every run that ends in
a state, whatever the records are, has `lapic` equal to the `lapic_address`
of the table, no pass through the `switch` changing it; on a table without a
type-1 record `ioapicid` is as before the call, and the run returns unless
the CPU list is empty. -/
theorem lapic_published (p2v : Nat → Nat) (NCPU : Nat) (mem : Mem) (fuel rsdp madt : Nat)
    (s : State)
    (hr : find_rsdp p2v mem fuel = some (some rsdp))
    (hx : ¬ (rsdp_revision mem rsdp ≥ 2 ∧ rsdp_xsdt_address mem rsdp ≠ 0))
    (hm : find_madt p2v mem (p2v (rsdp_rsdt_address mem rsdp))
      (rsdt_entries mem (p2v (rsdp_rsdt_address mem rsdp))).toNat 0 = some madt) :
    (∀ st, (acpi_init p2v NCPU mem fuel s).state = some st →
      st.lapic = madt_lapic_address mem madt) ∧
    (∀ (r : Nat) (s0 : State), (madt_record NCPU mem r s0).lapic = s0.lapic) ∧
    (∀ recs, records_cover mem (madt + sdth_length mem madt) (madt + 44) recs = true →
      recs.length < fuel → ioapic_ids mem recs = [] →
      ∃ st, (acpi_init p2v NCPU mem fuel s).state = some st ∧
        st.lapic = madt_lapic_address mem madt ∧ st.ioapicid = s.ioapicid ∧
        st.cpu_list = (enabled_ids mem recs).take NCPU ∧
        acpi_init p2v NCPU mem fuel s =
          (if st.cpu_list = [] then Outcome.halted "ACPI: no enabled CPUs" st
            else Outcome.returned st)) := by
  have hinit := acpi_init_of_madt p2v NCPU mem fuel rsdp madt s hr hx hm
  refine ⟨?_, fun r s0 => (madt_record_frame NCPU mem r s0).1, ?_⟩
  · intro st hst
    rw [hinit, acpi_parse_madt_eq] at hst
    cases hl : madt_loop NCPU mem (madt + sdth_length mem madt) fuel (madt + 44)
        ⟨madt_lapic_address mem madt, 0, s.cpus, s.ioapicid⟩ with
    | none =>
      rw [hl] at hst
      exact Option.noConfusion hst
    | some s3 =>
      rw [hl] at hst
      change (if s3.ncpu = 0 then Outcome.halted "ACPI: no enabled CPUs" s3
        else Outcome.returned s3).state = some st at hst
      rw [outcome_state_ite] at hst
      have e : s3 = st := Option.some.inj hst
      subst e
      exact (madt_loop_inv NCPU mem _ fuel _ _ s3 hl).1
  · intro recs hc hfuel hno
    obtain ⟨hcl, _⟩ := madt_records_fold_start NCPU mem recs (madt_lapic_address mem madt)
      s.ioapicid s.cpus
    obtain ⟨hlap, _, hio⟩ := madt_records_fold_frame NCPU mem recs
      ⟨madt_lapic_address mem madt, 0, s.cpus, s.ioapicid⟩
    have hinit' := hinit.trans (acpi_parse_madt_of_cover NCPU mem fuel madt s recs hc hfuel)
    have hz : ∀ t : State, (t.cpu_list = [] ↔ t.ncpu = 0) := by
      intro t
      rw [← cpu_list_length, List.length_eq_zero]
    refine ⟨_, ?_, hlap, ?_, hcl, ?_⟩
    · rw [hinit']
      exact outcome_state_ite _ _ _
    · rw [hio, hno]; rfl
    · rw [hinit']
      by_cases h0 : (madt_records_fold NCPU mem recs
          ⟨madt_lapic_address mem madt, 0, s.cpus, s.ioapicid⟩).ncpu = 0
      · rw [if_pos h0, if_pos ((hz _).mpr h0)]
      · rw [if_neg h0, if_neg (fun h => h0 ((hz _).mp h))]

/-- The table of `mem_lapic_only` has one enabled Local APIC record and no I/O
APIC record: the run returns with `lapic = 0xFEE00000`, the CPU list `[4]` and
`ioapicid` as in the boot state. -/
theorem lapic_published_witness :
    ∃ st, acpi_init id 8 mem_lapic_only 8193 boot_state = Outcome.returned st ∧
      st.lapic = 0xFEE00000 ∧ st.ioapicid = boot_state.ioapicid ∧ st.cpu_list = [4] :=
  let ⟨st, _, h2, h3, h4, h5⟩ :=
    (lapic_published id 8 mem_lapic_only 8193 0x9FC00 0x2000 boot_state (by decide) (by decide)
      (by decide)).2.2 [0x202C] (by decide) (by decide) (by decide)
  ⟨st, h5.trans (if_neg (by rw [h4]; decide)), h2, h3, h4⟩

theorem madt_record_congr (NCPU : Nat) (mem mem' : Mem) (r r' : Nat) (s : State)
    (h : record_fields mem r = record_fields mem' r') :
    madt_record NCPU mem r s = madt_record NCPU mem' r' s := by
  simp only [record_fields, Prod.mk.injEq] at h
  obtain ⟨h1, h2, h3, h4⟩ := h
  rw [madt_record_eq, madt_record_eq, h1, h2, h3, h4]

theorem madt_records_fold_known (NCPU : Nat) (mem : Mem) :
    ∀ (recs : List Nat) (s : State),
      madt_records_fold NCPU mem recs s =
        madt_records_fold NCPU mem (recs.filter (fun r => decide (rd8 mem r < 2))) s := by
  intro recs
  induction recs with
  | nil => intro s; rfl
  | cons r rs ih =>
    intro s
    by_cases h : rd8 mem r < 2
    · rw [List.filter_cons_of_pos (by simpa using h), madt_records_fold_cons,
        madt_records_fold_cons, ih]
    · rw [List.filter_cons_of_neg (by simpa using h), madt_records_fold_cons,
        madt_record_skip NCPU mem r s (by omega), ih]

theorem madt_records_fold_congr (NCPU : Nat) (mem mem' : Mem) :
    ∀ (l l' : List Nat) (s : State),
      l.map (record_fields mem) = l'.map (record_fields mem') →
      madt_records_fold NCPU mem l s = madt_records_fold NCPU mem' l' s := by
  intro l
  induction l with
  | nil =>
    intro l' s h
    cases l' with
    | nil => rfl
    | cons a t => simp at h
  | cons r rs ih =>
    intro l' s h
    cases l' with
    | nil => simp at h
    | cons a t =>
      simp only [List.map_cons, List.cons.injEq] at h
      rw [madt_records_fold_cons, madt_records_fold_cons,
        madt_record_congr NCPU mem mem' r a s h.1]
      exact ih t _ h.2

/-- C16: a pass through the `switch` at a record of type 2 or more changes
nothing, and the loop steps over it by its declared length; hence two tables
with the same `lapic_address` whose records of type 0 and 1 carry the same
fields in the same order, whatever records of other types lie between them,
give the same outcome of `acpi_init`, state included. -/
theorem unknown_records_skipped (p2v p2v' : Nat → Nat) (NCPU : Nat) (mem mem' : Mem)
    (fuel fuel' rsdp rsdp' madt madt' : Nat) (s : State) (recs recs' : List Nat)
    (hr : find_rsdp p2v mem fuel = some (some rsdp))
    (hx : ¬ (rsdp_revision mem rsdp ≥ 2 ∧ rsdp_xsdt_address mem rsdp ≠ 0))
    (hm : find_madt p2v mem (p2v (rsdp_rsdt_address mem rsdp))
      (rsdt_entries mem (p2v (rsdp_rsdt_address mem rsdp))).toNat 0 = some madt)
    (hc : records_cover mem (madt + sdth_length mem madt) (madt + 44) recs = true)
    (hfuel : recs.length < fuel)
    (hr' : find_rsdp p2v' mem' fuel' = some (some rsdp'))
    (hx' : ¬ (rsdp_revision mem' rsdp' ≥ 2 ∧ rsdp_xsdt_address mem' rsdp' ≠ 0))
    (hm' : find_madt p2v' mem' (p2v' (rsdp_rsdt_address mem' rsdp'))
      (rsdt_entries mem' (p2v' (rsdp_rsdt_address mem' rsdp'))).toNat 0 = some madt')
    (hc' : records_cover mem' (madt' + sdth_length mem' madt') (madt' + 44) recs' = true)
    (hfuel' : recs'.length < fuel')
    (hl : madt_lapic_address mem madt = madt_lapic_address mem' madt')
    (hk : known_records mem recs = known_records mem' recs') :
    acpi_init p2v NCPU mem fuel s = acpi_init p2v' NCPU mem' fuel' s ∧
    (∀ (p : Nat) (s0 : State), 2 ≤ rd8 mem p → madt_record NCPU mem p s0 = s0) ∧
    (∀ (f p end_ : Nat) (s0 : State), 2 ≤ rd8 mem p → p < end_ →
      madt_loop NCPU mem end_ (f + 1) p s0 =
        madt_loop NCPU mem end_ f (p + rd8 mem (p + 1)) s0) := by
  refine ⟨?_, fun p s0 h => madt_record_skip NCPU mem p s0 h, ?_⟩
  · have e : madt_records_fold NCPU mem recs
          ⟨madt_lapic_address mem madt, 0, s.cpus, s.ioapicid⟩ =
        madt_records_fold NCPU mem' recs'
          ⟨madt_lapic_address mem' madt', 0, s.cpus, s.ioapicid⟩ := by
      rw [madt_records_fold_known NCPU mem recs, madt_records_fold_known NCPU mem' recs', hl]
      exact madt_records_fold_congr NCPU mem mem' _ _ _ hk
    rw [acpi_init_of_madt p2v NCPU mem fuel rsdp madt s hr hx hm,
      acpi_parse_madt_of_cover NCPU mem fuel madt s recs hc hfuel,
      acpi_init_of_madt p2v' NCPU mem' fuel' rsdp' madt' s hr' hx' hm',
      acpi_parse_madt_of_cover NCPU mem' fuel' madt' s recs' hc' hfuel', e]
  · intro f p end_ s0 h hp
    conv_lhs => unfold madt_loop
    rw [if_pos hp, madt_record_skip NCPU mem p s0 h]

/-- The table of `mem_five` is the table of `mem_demo` with a 10-byte record
of type 2 inserted after the first record: both runs have the same outcome. -/
theorem unknown_records_skipped_witness :
    acpi_init id 8 mem_demo 8193 boot_state = acpi_init id 8 mem_five 8193 boot_state :=
  (unknown_records_skipped id id 8 mem_demo mem_five 8193 8193 0x9FC00 0x9FC00 0x2000 0x2000
    boot_state [0x202C, 0x2034, 0x203C, 0x2048] [0x202C, 0x2034, 0x203E, 0x2046, 0x2052]
    (by decide) (by decide) (by decide) (by decide) (by decide)
    (by decide) (by decide) (by decide) (by decide) (by decide)
    (by decide) (by decide)).1

/-- C17, on the tables of `mem_trunc 7` and `mem_trunc 9`, of declared length
46: the two memories differ only at `0x202F`, offset 47 from the table base
and so outside `[44, 46)`, yet the CPU lists `acpi_init` returns differ. The
record parser has read `apic_id` (and `flags`) of the truncated record past
the declared end of the table. -/
theorem truncated_record_read_past_end :
    sdth_length (mem_trunc 7) 0x2000 = 46 ∧ sdth_length (mem_trunc 9) 0x2000 = 46 ∧
    (∀ a, a ≠ 0x2000 + 47 → mem_trunc 7 a = mem_trunc 9 a) ∧
    (acpi_init id 8 (mem_trunc 7) 8193 boot_state).cpu_list = some [7] ∧
    (acpi_init id 8 (mem_trunc 9) 8193 boot_state).cpu_list = some [9] := by
  refine ⟨by decide, by decide, ?_, by decide, by decide⟩
  intro a ha
  have hl7 : (madt_header 46 ++ [0, 8, 0, 7, 1, 0, 0, 0]).length = 52 := rfl
  have hl9 : (madt_header 46 ++ [0, 8, 0, 9, 1, 0, 0, 0]).length = 52 := rfl
  have hall : ∀ i, i < 52 → i ≠ 47 →
      (madt_header 46 ++ [0, 8, 0, 7, 1, 0, 0, 0]).getD i 0 =
        (madt_header 46 ++ [0, 8, 0, 9, 1, 0, 0, 0]).getD i 0 := by decide
  unfold mem_trunc mem_with_madt image
  rw [hl7, hl9]
  by_cases h : 0x2000 ≤ a ∧ a < 0x2000 + 52
  · rw [if_pos h, if_pos h]
    exact hall (a - 0x2000) (by omega) (by omega)
  · rw [if_neg h, if_neg h]

theorem find_rsdp_sound (p2v : Nat → Nat) (mem : Mem) (fuel r : Nat)
    (h : find_rsdp p2v mem fuel = some (some r)) : rsdp_accept mem r = true := by
  unfold find_rsdp at h
  by_cases he : ebda_addr p2v mem ≠ 0
  · rw [if_pos he] at h
    rcases hs : find_rsdp_range p2v mem fuel (ebda_addr p2v mem)
        ((ebda_addr p2v mem + 1024) % 2 ^ 32) with _ | _ | r'
    · rw [hs] at h; exact Option.noConfusion h
    · rw [hs] at h
      exact find_rsdp_range_sound p2v mem fuel _ _ r h
    · rw [hs] at h
      have e : r' = r := Option.some.inj (Option.some.inj h)
      subst e
      exact find_rsdp_range_sound p2v mem fuel _ _ r' hs
  · rw [if_neg he] at h
    exact find_rsdp_range_sound p2v mem fuel _ _ r h

/-- C18, as stated, fails on `mem_demo`: the bytes of the root table over its
declared length sum to 241 modulo 256 and those of the topology table to 171,
and `acpi_init` returns the CPU list `[1, 3]` and the I/O APIC id 5 from them. -/
theorem table_checksum_counterexample :
    byte_sum mem_demo 0x1000 (sdth_length mem_demo 0x1000) % 256 = 241 ∧
    byte_sum mem_demo 0x2000 (sdth_length mem_demo 0x2000) % 256 = 171 ∧
    find_rsdp id mem_demo 8193 = some (some 0x9FC00) ∧
    rsdp_rsdt_address mem_demo 0x9FC00 = 0x1000 ∧
    find_madt id mem_demo 0x1000 (rsdt_entries mem_demo 0x1000).toNat 0 = some 0x2000 ∧
    (acpi_init id 8 mem_demo 8193 boot_state).cpu_list = some [1, 3] ∧
    (acpi_init id 8 mem_demo 8193 boot_state).ioapicid = some 5 := by
  refine ⟨by decide, by decide, by decide, by decide, by decide, by decide, by decide⟩

/-- C18, amended: only the root pointer is checksummed. The structure
`find_rsdp` returns has a 20-byte sum of 0 modulo 256; a root table or a
topology table whose bytes over the declared length do not sum to 0 modulo 256
is used like any other: the run ends with the CPU list, `lapic` and
`ioapicid` its records give. -/
theorem table_checksum_not_checked (p2v : Nat → Nat) (NCPU : Nat) (mem : Mem)
    (fuel rsdp madt : Nat) (s : State) (recs : List Nat)
    (hr : find_rsdp p2v mem fuel = some (some rsdp))
    (hx : ¬ (rsdp_revision mem rsdp ≥ 2 ∧ rsdp_xsdt_address mem rsdp ≠ 0))
    (hm : find_madt p2v mem (p2v (rsdp_rsdt_address mem rsdp))
      (rsdt_entries mem (p2v (rsdp_rsdt_address mem rsdp))).toNat 0 = some madt)
    (hc : records_cover mem (madt + sdth_length mem madt) (madt + 44) recs = true)
    (hfuel : recs.length < fuel)
    (_hbad : byte_sum mem (p2v (rsdp_rsdt_address mem rsdp))
        (sdth_length mem (p2v (rsdp_rsdt_address mem rsdp))) % 256 ≠ 0 ∨
      byte_sum mem madt (sdth_length mem madt) % 256 ≠ 0) :
    byte_sum mem rsdp 20 % 256 = 0 ∧
    ∃ st, (acpi_init p2v NCPU mem fuel s).state = some st ∧
      st.lapic = madt_lapic_address mem madt ∧
      st.cpu_list = (enabled_ids mem recs).take NCPU ∧
      st.ioapicid = (ioapic_ids mem recs).getLast?.getD s.ioapicid ∧
      acpi_init p2v NCPU mem fuel s =
        (if st.cpu_list = [] then Outcome.halted "ACPI: no enabled CPUs" st
          else Outcome.returned st) := by
  refine ⟨((rsdp_accept_iff mem rsdp).mp (find_rsdp_sound p2v mem fuel rsdp hr)).2.1, ?_⟩
  obtain ⟨hcl, _⟩ := madt_records_fold_start NCPU mem recs (madt_lapic_address mem madt)
    s.ioapicid s.cpus
  obtain ⟨hlap, _, hio⟩ := madt_records_fold_frame NCPU mem recs
    ⟨madt_lapic_address mem madt, 0, s.cpus, s.ioapicid⟩
  have hinit := (acpi_init_of_madt p2v NCPU mem fuel rsdp madt s hr hx hm).trans
    (acpi_parse_madt_of_cover NCPU mem fuel madt s recs hc hfuel)
  have hz : ∀ t : State, (t.cpu_list = [] ↔ t.ncpu = 0) := by
    intro t
    rw [← cpu_list_length, List.length_eq_zero]
  refine ⟨_, ?_, hlap, hcl, hio, ?_⟩
  · rw [hinit]
    exact outcome_state_ite _ _ _
  · rw [hinit]
    by_cases h0 : (madt_records_fold NCPU mem recs
        ⟨madt_lapic_address mem madt, 0, s.cpus, s.ioapicid⟩).ncpu = 0
    · rw [if_pos h0, if_pos ((hz _).mpr h0)]
    · rw [if_neg h0, if_neg (fun h => h0 ((hz _).mp h))]

/-- Both tables of `mem_demo` have a non-zero byte sum, the root pointer a
zero one, and the run returns from them. -/
theorem table_checksum_not_checked_witness :
    byte_sum mem_demo 0x9FC00 20 % 256 = 0 ∧
    ∃ st, acpi_init id 8 mem_demo 8193 boot_state = Outcome.returned st ∧
      st.lapic = 0xFEE00000 ∧ st.cpu_list = [1, 3] ∧ st.ioapicid = 5 :=
  let ⟨h0, st, _, h2, h3, h4, h5⟩ :=
    table_checksum_not_checked id 8 mem_demo 8193 0x9FC00 0x2000 boot_state
      [0x202C, 0x2034, 0x203C, 0x2048] (by decide) (by decide) (by decide) (by decide)
      (by decide) (Or.inl (by decide))
  ⟨h0, st, h5.trans (if_neg (by rw [h3]; decide)), h2, h3, h4⟩

theorem find_rsdp_range_visits_found (p2v : Nat → Nat) (mem : Mem) :
    ∀ (k fuel start end_ : Nat), k < fuel → start + 16 * k < end_ → end_ ≤ 2 ^ 32 →
      (∀ j, j < k → rsdp_accept mem (p2v (start + 16 * j)) = false) →
      rsdp_accept mem (p2v (start + 16 * k)) = true →
      find_rsdp_range_visits p2v mem fuel start end_ = List.range' start (k + 1) 16 := by
  intro k
  induction k with
  | zero =>
    intro fuel start end_ hf hlt _ _ hk
    obtain ⟨f, rfl⟩ : ∃ f, fuel = f + 1 := ⟨fuel - 1, by omega⟩
    simp only [Nat.mul_zero, Nat.add_zero] at hlt hk
    unfold find_rsdp_range_visits
    rw [if_pos hlt, if_pos hk]
    rfl
  | succ k ih =>
    intro fuel start end_ hf hlt hend hj hk
    obtain ⟨f, rfl⟩ : ∃ f, fuel = f + 1 := ⟨fuel - 1, by omega⟩
    have h0 : ¬ rsdp_accept mem (p2v start) = true := by
      have := hj 0 (by omega)
      rw [Nat.mul_zero, Nat.add_zero] at this
      rw [this]; decide
    have hs : start < end_ := by omega
    have hm : (start + 16) % 2 ^ 32 = start + 16 := Nat.mod_eq_of_lt (by omega)
    have e : ∀ j, start + 16 + 16 * j = start + 16 * (j + 1) := fun j => by ring
    unfold find_rsdp_range_visits
    rw [if_pos hs, if_neg h0, hm, List.range'_succ]
    congr 1
    apply ih f (start + 16) end_ (by omega) (by rw [e]; exact hlt) hend
    · intro j hjk
      rw [e]; exact hj (j + 1) (by omega)
    · rw [e]; exact hk

theorem find_rsdp_range_visits_null (p2v : Nat → Nat) (mem : Mem) :
    ∀ (n fuel start end_ : Nat), n ≤ fuel → end_ ≤ start + 16 * n → start + 16 * n < 2 ^ 32 →
      (∀ j, j < n → start + 16 * j < end_) →
      (∀ j, j < n → rsdp_accept mem (p2v (start + 16 * j)) = false) →
      find_rsdp_range_visits p2v mem fuel start end_ = List.range' start n 16 := by
  intro n
  induction n with
  | zero =>
    intro fuel start end_ _ hle _ _ _
    have hs : ¬ start < end_ := by omega
    cases fuel with
    | zero => rfl
    | succ f =>
      unfold find_rsdp_range_visits
      rw [if_neg hs]
      rfl
  | succ n ih =>
    intro fuel start end_ hf hle hw hin hj
    obtain ⟨f, rfl⟩ : ∃ f, fuel = f + 1 := ⟨fuel - 1, by omega⟩
    have hs : start < end_ := by
      have := hin 0 (by omega)
      omega
    have h0 : ¬ rsdp_accept mem (p2v start) = true := by
      have := hj 0 (by omega)
      rw [Nat.mul_zero, Nat.add_zero] at this
      rw [this]; decide
    have hm : (start + 16) % 2 ^ 32 = start + 16 := Nat.mod_eq_of_lt (by omega)
    have e : ∀ j, start + 16 + 16 * j = start + 16 * (j + 1) := fun j => by ring
    unfold find_rsdp_range_visits
    rw [if_pos hs, if_neg h0, hm, List.range'_succ]
    congr 1
    apply ih f (start + 16) end_ (by omega) (by rw [e]; exact hle) (by rw [e]; exact hw)
    · intro j hjn
      rw [e]; exact hin (j + 1) (by omega)
    · intro j hjn
      rw [e]; exact hj (j + 1) (by omega)

/-- A scan of `n` candidates that cannot wrap ends, and the values of `p` it
runs the body for are the first `m ≤ n` candidates: all `n` of them when it
returns null, and up to the returned one when it returns a structure. -/
theorem find_rsdp_range_scan (p2v : Nat → Nat) (mem : Mem) (n fuel start : Nat)
    (hfuel : n < fuel) (hw : start + 16 * n < 2 ^ 32) :
    ∃ r, find_rsdp_range p2v mem fuel start (start + 16 * n) = some r ∧
      ∃ m, m ≤ n ∧
        find_rsdp_range_visits p2v mem fuel start (start + 16 * n) = List.range' start m 16 ∧
        (r = none → m = n) ∧
        (∀ q, r = some q → 0 < m ∧ q = p2v (start + 16 * (m - 1))) := by
  by_cases h : ∃ k, k < n ∧ rsdp_accept mem (p2v (start + 16 * k)) = true
  · obtain ⟨k, hk, hv, hlow⟩ :=
      exists_lowest (fun k => rsdp_accept mem (p2v (start + 16 * k))) n h
    refine ⟨_, find_rsdp_range_found p2v mem k fuel start _ (by omega) (by omega) (by omega)
      hlow hv, k + 1, by omega, ?_, fun hc => Option.noConfusion hc, fun q hq => ?_⟩
    · exact find_rsdp_range_visits_found p2v mem k fuel start _ (by omega) (by omega)
        (by omega) hlow hv
    · exact ⟨Nat.succ_pos k, (Option.some.inj hq).symm⟩
  · have hno : ∀ j, j < n → rsdp_accept mem (p2v (start + 16 * j)) = false := by
      intro j hj
      by_contra hc
      exact h ⟨j, hj, by simpa using hc⟩
    refine ⟨_, find_rsdp_range_null p2v mem n fuel start _ hfuel (Nat.le_refl _) hw
      (fun j hj => hno j (by omega)), n, Nat.le_refl _, ?_, fun _ => rfl,
      fun q hq => Option.noConfusion hq⟩
    exact find_rsdp_range_visits_null p2v mem n fuel start _ (by omega) (Nat.le_refl _) hw
      (fun j hj => by omega) hno

/-- The result of a scan of `n` candidates that cannot wrap: the first
accepted one among exactly `start, start + 16, …`, in that order, or null. -/
theorem find_rsdp_range_find (p2v : Nat → Nat) (mem : Mem) :
    ∀ (n fuel start : Nat), n < fuel → start + 16 * n < 2 ^ 32 →
      find_rsdp_range p2v mem fuel start (start + 16 * n) =
        some (((List.range' start n 16).find? (fun p => rsdp_accept mem (p2v p))).map p2v) := by
  intro n
  induction n with
  | zero =>
    intro fuel start hf _
    obtain ⟨f, rfl⟩ : ∃ f, fuel = f + 1 := ⟨fuel - 1, by omega⟩
    unfold find_rsdp_range
    rw [if_neg (by omega)]
    rfl
  | succ n ih =>
    intro fuel start hf hw
    obtain ⟨f, rfl⟩ : ∃ f, fuel = f + 1 := ⟨fuel - 1, by omega⟩
    have hm : (start + 16) % 2 ^ 32 = start + 16 := Nat.mod_eq_of_lt (by omega)
    have e : start + 16 * (n + 1) = start + 16 + 16 * n := by ring
    unfold find_rsdp_range
    rw [if_pos (by omega), List.range'_succ, List.find?_cons]
    by_cases ha : rsdp_accept mem (p2v start) = true
    · rw [if_pos ha, ha]
      rfl
    · have ha' : rsdp_accept mem (p2v start) = false := by simpa using ha
      rw [if_neg ha, ha', hm, e]
      exact ih f (start + 16) (by omega) (by omega)

/-- The candidates of `find_rsdp`, in the order of the search: the 64
addresses of the EBDA window when `ebda_addr` is non-zero, then the 8192
addresses of the ROM window. -/
theorem find_rsdp_find (p2v : Nat → Nat) (mem : Mem) (fuel : Nat) (hfuel : 8192 < fuel) :
    find_rsdp p2v mem fuel =
      some ((((if ebda_addr p2v mem ≠ 0 then List.range' (ebda_addr p2v mem) 64 16 else []) ++
        List.range' 0xE0000 8192 16).find? (fun p => rsdp_accept mem (p2v p))).map p2v) := by
  obtain ⟨_, hb, hm⟩ := ebda_addr_eq p2v mem
  have hrom : find_rsdp_range p2v mem fuel 0xE0000 0x100000 =
      some (((List.range' 0xE0000 8192 16).find? (fun p => rsdp_accept mem (p2v p))).map p2v) :=
    find_rsdp_range_find p2v mem 8192 fuel 0xE0000 hfuel (by norm_num)
  unfold find_rsdp
  by_cases he : ebda_addr p2v mem ≠ 0
  · have hebda := find_rsdp_range_find p2v mem 64 fuel (ebda_addr p2v mem) (by omega) (by omega)
    rw [if_pos he, if_pos he, hm, hebda, List.find?_append]
    cases hf : (List.range' (ebda_addr p2v mem) 64 16).find?
        (fun p => rsdp_accept mem (p2v p)) with
    | none => exact hrom
    | some a => rfl
  · rw [if_neg he, if_neg he, List.nil_append]
    exact hrom

/-- C19: for every memory, so for every 16-bit value at `0x40E`, `ebda_addr`
is 16 times that value and `ebda_addr + 1024 ≤ 0x1003F0`, so neither the end
of the EBDA window nor a step `p += 16` of either scan wraps modulo `2^32`;
`find_rsdp` returns; with `ebda_addr ≠ 0` the EBDA scan returns and runs its
body for an initial segment of the 64 addresses `ebda_addr + 16 k`, all of
them when it returns null; with `ebda_addr = 0` only the ROM scan is run; the
ROM scan returns and runs its body for an initial segment of the 8192
addresses `0xE0000 + 16 k`, all below `0x100000`. With a non-zero segment
`find_rsdp` does issue the EBDA scan: it returns what that scan finds, and
the result of the ROM scan when that scan returns null. Each scan returns the
first accepted of exactly its candidates, and `find_rsdp` the first accepted
of the 64 EBDA candidates (none when the segment is 0) followed by the 8192
ROM candidates. -/
theorem find_rsdp_scans (p2v : Nat → Nat) (mem : Mem) (fuel : Nat) (hfuel : 8192 < fuel) :
    ebda_addr p2v mem = 16 * rd16 mem (p2v 0x40E) ∧ rd16 mem (p2v 0x40E) < 65536 ∧
    ebda_addr p2v mem + 1024 ≤ 0x1003F0 ∧
    (ebda_addr p2v mem + 1024) % 2 ^ 32 = ebda_addr p2v mem + 1024 ∧
    (∀ k, k < 64 →
      (ebda_addr p2v mem + 16 * k + 16) % 2 ^ 32 = ebda_addr p2v mem + 16 * k + 16) ∧
    (∀ k, k < 8192 → (0xE0000 + 16 * k + 16) % 2 ^ 32 = 0xE0000 + 16 * k + 16 ∧
      0xE0000 + 16 * k < 0x100000) ∧
    (∃ r, find_rsdp p2v mem fuel = some r) ∧
    (ebda_addr p2v mem ≠ 0 →
      ∃ r, find_rsdp_range p2v mem fuel (ebda_addr p2v mem)
          ((ebda_addr p2v mem + 1024) % 2 ^ 32) = some r ∧
        ∃ m, m ≤ 64 ∧
          find_rsdp_range_visits p2v mem fuel (ebda_addr p2v mem)
            ((ebda_addr p2v mem + 1024) % 2 ^ 32) = List.range' (ebda_addr p2v mem) m 16 ∧
          (r = none → m = 64) ∧
          (∀ q, r = some q → 0 < m ∧ q = p2v (ebda_addr p2v mem + 16 * (m - 1)))) ∧
    (ebda_addr p2v mem = 0 →
      find_rsdp p2v mem fuel = find_rsdp_range p2v mem fuel 0xE0000 0x100000) ∧
    (∃ r, find_rsdp_range p2v mem fuel 0xE0000 0x100000 = some r ∧
      ∃ m, m ≤ 8192 ∧
        find_rsdp_range_visits p2v mem fuel 0xE0000 0x100000 = List.range' 0xE0000 m 16 ∧
        (r = none → m = 8192) ∧
        (∀ q, r = some q → 0 < m ∧ q = p2v (0xE0000 + 16 * (m - 1)))) ∧
    (ebda_addr p2v mem ≠ 0 →
      (∀ r, find_rsdp_range p2v mem fuel (ebda_addr p2v mem)
          ((ebda_addr p2v mem + 1024) % 2 ^ 32) = some (some r) →
        find_rsdp p2v mem fuel = some (some r)) ∧
      (find_rsdp_range p2v mem fuel (ebda_addr p2v mem)
          ((ebda_addr p2v mem + 1024) % 2 ^ 32) = some none →
        find_rsdp p2v mem fuel = find_rsdp_range p2v mem fuel 0xE0000 0x100000) ∧
      find_rsdp_range p2v mem fuel (ebda_addr p2v mem) ((ebda_addr p2v mem + 1024) % 2 ^ 32) =
        some (((List.range' (ebda_addr p2v mem) 64 16).find?
          (fun p => rsdp_accept mem (p2v p))).map p2v)) ∧
    find_rsdp_range p2v mem fuel 0xE0000 0x100000 =
      some (((List.range' 0xE0000 8192 16).find? (fun p => rsdp_accept mem (p2v p))).map p2v) ∧
    find_rsdp p2v mem fuel =
      some ((((if 16 * rd16 mem (p2v 0x40E) ≠ 0 then
            List.range' (16 * rd16 mem (p2v 0x40E)) 64 16 else []) ++
        List.range' 0xE0000 8192 16).find? (fun p => rsdp_accept mem (p2v p))).map p2v) := by
  obtain ⟨he, hb, hm⟩ := ebda_addr_eq p2v mem
  have h1 := rd8_lt mem (p2v 0x40E)
  have h2 := rd8_lt mem (p2v 0x40E + 1)
  have hs : rd16 mem (p2v 0x40E) < 65536 := by unfold rd16; omega
  refine ⟨he, hs, by omega, hm, fun k hk => Nat.mod_eq_of_lt (by omega),
    fun k hk => ⟨Nat.mod_eq_of_lt (by omega), by omega⟩, ?_, ?_, ?_, ?_, ?_, ?_, ?_⟩
  · rcases find_rsdp_cases p2v mem fuel hfuel with ⟨k, _, _, _, _, hr⟩ | ⟨k, _, _, _, _, hr⟩ |
      ⟨_, _, hr⟩
    · exact ⟨_, hr⟩
    · exact ⟨_, hr⟩
    · exact ⟨_, hr⟩
  · intro _
    rw [hm]
    exact find_rsdp_range_scan p2v mem 64 fuel (ebda_addr p2v mem) (by omega) (by omega)
  · intro h0
    unfold find_rsdp
    rw [if_neg (not_not.mpr h0)]
  · exact find_rsdp_range_scan p2v mem 8192 fuel 0xE0000 hfuel (by norm_num)
  · intro h0
    refine ⟨fun r hr => ?_, fun hr => ?_, ?_⟩
    · unfold find_rsdp
      rw [if_pos h0, hr]
    · unfold find_rsdp
      rw [if_pos h0, hr]
    · rw [hm]
      exact find_rsdp_range_find p2v mem 64 fuel (ebda_addr p2v mem) (by omega) (by omega)
  · exact find_rsdp_range_find p2v mem 8192 fuel 0xE0000 hfuel (by norm_num)
  · rw [← he]
    exact find_rsdp_find p2v mem fuel hfuel

/-- In `mem_demo` the root pointer sits at the first address of the EBDA
window, at `0x9FC00`: the EBDA scan runs its body for that address only. -/
theorem find_rsdp_scans_witness :
    ebda_addr id mem_demo + 1024 ≤ 0x1003F0 ∧ (∃ r, find_rsdp id mem_demo 8193 = some r) ∧
      find_rsdp_range_visits id mem_demo 8193 0x9FC00 (0x9FC00 + 1024) = [0x9FC00] ∧
      find_rsdp id mem_demo 8193 = some (some 0x9FC00) :=
  ⟨(find_rsdp_scans id mem_demo 8193 (by decide)).2.2.1,
   (find_rsdp_scans id mem_demo 8193 (by decide)).2.2.2.2.2.2.1, by decide,
   ((find_rsdp_scans id mem_demo 8193 (by decide)).2.2.2.2.2.2.2.2.2.2.1 (by decide)).1
     0x9FC00 (by decide)⟩

theorem madt_cursor_le (mem : Mem) : ∀ (i p : Nat), p ≤ madt_cursor mem p i := by
  intro i
  induction i with
  | zero => intro p; exact Nat.le_refl _
  | succ i ih =>
    intro p
    exact Nat.le_trans (Nat.le_add_right _ _) (ih (p + rd8 mem (p + 1)))

theorem madt_cursor_add (mem : Mem) :
    ∀ (i k p : Nat), madt_cursor mem p (i + k) = madt_cursor mem (madt_cursor mem p i) k := by
  intro i
  induction i with
  | zero => intro k p; rw [Nat.zero_add]; rfl
  | succ i ih =>
    intro k p
    rw [show i + 1 + k = (i + k) + 1 by omega]
    exact ih k (p + rd8 mem (p + 1))

theorem madt_cursor_step (mem : Mem) (p i : Nat) :
    madt_cursor mem p (i + 1) =
      madt_cursor mem p i + rd8 mem (madt_cursor mem p i + 1) :=
  madt_cursor_add mem i 1 p

theorem madt_cursor_mono (mem : Mem) (p i k : Nat) (h : i ≤ k) :
    madt_cursor mem p i ≤ madt_cursor mem p k := by
  obtain ⟨d, rfl⟩ : ∃ d, k = i + d := ⟨k - i, by omega⟩
  rw [madt_cursor_add]
  exact madt_cursor_le mem d _

/-- Termination of the record loop from cursor `p`, by induction on the
distance to `end_`. -/
theorem madt_loop_terminates_aux (NCPU : Nat) (mem : Mem) (end_ : Nat) :
    ∀ (d p : Nat), end_ - p ≤ d →
      (∀ i, madt_cursor mem p i < end_ → rd8 mem (madt_cursor mem p i + 1) ≠ 0) →
      ∃ n, n ≤ end_ - p ∧ end_ ≤ madt_cursor mem p n ∧
        (∀ i, i < n → madt_cursor mem p i < end_) ∧
        ∀ s : State, (∀ fuel, n < fuel → ∃ st, madt_loop NCPU mem end_ fuel p s = some st) ∧
          madt_loop NCPU mem end_ n p s = none := by
  intro d
  induction d with
  | zero =>
    intro p hd _
    have hp : ¬ p < end_ := by omega
    refine ⟨0, Nat.zero_le _, by show end_ ≤ p; omega, fun i hi => absurd hi (Nat.not_lt_zero i),
      fun s => ⟨fun fuel hf => ?_, rfl⟩⟩
    obtain ⟨f, rfl⟩ : ∃ f, fuel = f + 1 := ⟨fuel - 1, by omega⟩
    unfold madt_loop
    rw [if_neg hp]
    exact ⟨s, rfl⟩
  | succ d ih =>
    intro p hd hlen
    by_cases hp : p < end_
    · have h0 : rd8 mem (p + 1) ≠ 0 := hlen 0 hp
      obtain ⟨n, hn, hend, hin, hrun⟩ := ih (p + rd8 mem (p + 1)) (by omega)
        (fun i hi => hlen (i + 1) hi)
      refine ⟨n + 1, by omega, hend, fun i hi => ?_, fun s => ⟨fun fuel hf => ?_, ?_⟩⟩
      · cases i with
        | zero => exact hp
        | succ i => exact hin i (by omega)
      · obtain ⟨f, rfl⟩ : ∃ f, fuel = f + 1 := ⟨fuel - 1, by omega⟩
        unfold madt_loop
        rw [if_pos hp]
        exact (hrun _).1 f (by omega)
      · unfold madt_loop
        rw [if_pos hp]
        exact (hrun _).2
    · refine ⟨0, Nat.zero_le _, by show end_ ≤ p; omega,
        fun i hi => absurd hi (Nat.not_lt_zero i), fun s => ⟨fun fuel hf => ?_, rfl⟩⟩
      obtain ⟨f, rfl⟩ : ∃ f, fuel = f + 1 := ⟨fuel - 1, by omega⟩
      unfold madt_loop
      rw [if_neg hp]
      exact ⟨s, rfl⟩

/-- C20: when every record the cursor reaches inside the table has a declared
length of at least 1, the record loop of `acpi_init` ends after some number
`n ≤ header.length - 44` of iterations (none when `header.length ≤ 44`): on
each of them the cursor is inside the table and grows by the declared length
of the record, between 1 and 255; after them it is at or past the end; the
loop returns a state with any fuel above `n`, and not with fuel `n`. -/
theorem record_loop_terminates (NCPU : Nat) (mem : Mem) (madt : Nat) (s : State)
    (hlen : ∀ i, madt_cursor mem (madt + 44) i < madt + sdth_length mem madt →
      rd8 mem (madt_cursor mem (madt + 44) i + 1) ≠ 0) :
    ∃ n, n ≤ sdth_length mem madt - 44 ∧ (sdth_length mem madt ≤ 44 → n = 0) ∧
      (∀ i, i < n →
        madt_cursor mem (madt + 44) i < madt + sdth_length mem madt ∧
        madt_cursor mem (madt + 44) (i + 1) =
          madt_cursor mem (madt + 44) i + rd8 mem (madt_cursor mem (madt + 44) i + 1) ∧
        madt_cursor mem (madt + 44) i + 1 ≤ madt_cursor mem (madt + 44) (i + 1) ∧
        madt_cursor mem (madt + 44) (i + 1) ≤ madt_cursor mem (madt + 44) i + 255) ∧
      madt + sdth_length mem madt ≤ madt_cursor mem (madt + 44) n ∧
      (∀ fuel, n < fuel →
        ∃ st, madt_loop NCPU mem (madt + sdth_length mem madt) fuel (madt + 44) s = some st) ∧
      madt_loop NCPU mem (madt + sdth_length mem madt) n (madt + 44) s = none := by
  obtain ⟨n, hn, hend, hin, hrun⟩ := madt_loop_terminates_aux NCPU mem
    (madt + sdth_length mem madt) _ (madt + 44) (Nat.le_refl _) hlen
  refine ⟨n, by omega, fun h => by omega, fun i hi => ?_, hend, (hrun s).1, (hrun s).2⟩
  have h1 := hin i hi
  have h2 := hlen i h1
  have h3 := rd8_lt mem (madt_cursor mem (madt + 44) i + 1)
  have h4 := madt_cursor_step mem (madt + 44) i
  exact ⟨h1, h4, by omega, by omega⟩

theorem mem_demo_record_lengths (i : Nat)
    (h : madt_cursor mem_demo (0x2000 + 44) i < 0x2000 + sdth_length mem_demo 0x2000) :
    rd8 mem_demo (madt_cursor mem_demo (0x2000 + 44) i + 1) ≠ 0 := by
  have hl : sdth_length mem_demo 0x2000 = 80 := by decide
  rw [hl] at h
  by_cases hi : i < 4
  · interval_cases i <;> decide
  · exfalso
    have h4 : madt_cursor mem_demo (0x2000 + 44) 4 = 0x2050 := by decide
    have := madt_cursor_mono mem_demo (0x2000 + 44) 4 i (by omega)
    omega

/-- The four records of `mem_demo` have the declared lengths 8, 8, 12 and 8:
the record loop returns a state within 37 iterations. -/
theorem record_loop_terminates_witness :
    ∃ st, madt_loop 8 mem_demo (0x2000 + 80) 37 (0x2000 + 44) boot_state = some st :=
  let ⟨_, hn, _, _, _, hrun, _⟩ :=
    record_loop_terminates 8 mem_demo 0x2000 boot_state mem_demo_record_lengths
  hrun 37 (Nat.lt_succ_of_le hn)

/-- A structure the spec calls valid is accepted by the loop body. -/
theorem rsdp_valid_accept (mem : Mem) (r : Nat) (h : rsdp_valid mem r) :
    rsdp_accept mem r = true := by
  obtain ⟨hs, h20, hext⟩ := h
  by_cases hrev : 2 ≤ rsdp_revision mem r
  · by_cases hlen : rsdp_length mem r < 2 ^ 31
    · exact (rsdp_rev2_accept_iff mem r hs hrev hlen).mpr ⟨h20, hext hrev⟩
    · exact (rsdp_rev2_huge_accept_iff mem r hs (by omega)).mpr h20
  · rw [rsdp_accept_iff]
    exact ⟨hs, h20, fun h2 => absurd h2 hrev⟩

/-- An accepted structure is valid in the words of the spec unless its
revision is 2 or more and its `length` field is `2^31` or more. -/
theorem rsdp_accept_valid (mem : Mem) (r : Nat) (h : rsdp_accept mem r = true)
    (hlen : rsdp_revision mem r < 2 ∨ rsdp_length mem r < 2 ^ 31) : rsdp_valid mem r := by
  have h' := (rsdp_accept_iff mem r).mp h
  refine ⟨h'.1, h'.2.1, fun hrev => ?_⟩
  rcases hlen with hl | hl
  · omega
  · exact ((rsdp_rev2_accept_iff mem r h'.1 hrev hl).mp h).2

theorem find?_congr_mem (l : List Nat) (f g : Nat → Bool) (h : ∀ a, a ∈ l → f a = g a) :
    l.find? f = l.find? g := by
  induction l with
  | nil => rfl
  | cons a t ih =>
    rw [List.find?_cons, List.find?_cons, h a (List.mem_cons_self a t),
      ih (fun b hb => h b (List.mem_cons_of_mem a hb))]

/-- Away from the `length ≥ 2^31` case, `find_rsdp` returns the first valid
structure, in the words of the spec, among the 64 EBDA candidates (none when
the segment is 0) followed by the 8192 ROM candidates, and null when there is
none. -/
theorem find_rsdp_first_valid (p2v : Nat → Nat) (mem : Mem) (fuel : Nat) (hfuel : 8192 < fuel)
    (hsafe : ∀ p,
      p ∈ (if 16 * rd16 mem (p2v 0x40E) ≠ 0 then
          List.range' (16 * rd16 mem (p2v 0x40E)) 64 16 else []) ++
        List.range' 0xE0000 8192 16 →
      rsdp_accept mem (p2v p) = true →
      rsdp_revision mem (p2v p) < 2 ∨ rsdp_length mem (p2v p) < 2 ^ 31) :
    find_rsdp p2v mem fuel =
      some ((((if 16 * rd16 mem (p2v 0x40E) ≠ 0 then
            List.range' (16 * rd16 mem (p2v 0x40E)) 64 16 else []) ++
        List.range' 0xE0000 8192 16).find?
          (fun p => decide (rsdp_valid mem (p2v p)))).map p2v) := by
  have he := (ebda_addr_eq p2v mem).1
  have h := find_rsdp_find p2v mem fuel hfuel
  rw [he] at h
  rw [h]
  congr 2
  apply find?_congr_mem
  intro p hp
  by_cases ha : rsdp_accept mem (p2v p) = true
  · rw [ha]
    exact (decide_eq_true (rsdp_accept_valid mem (p2v p) ha (hsafe p hp ha))).symm
  · have hv : ¬ rsdp_valid mem (p2v p) := fun hv => ha (rsdp_valid_accept mem (p2v p) hv)
    have ha' : rsdp_accept mem (p2v p) = false := by simpa using ha
    rw [ha']
    exact (decide_eq_false hv).symm

theorem not_rsdp_valid_of_first_byte (mem : Mem) (r : Nat) (h : rd8 mem r ≠ 82) :
    ¬ rsdp_valid mem r := by
  intro hv
  apply h
  have := hv.1 0 (by decide)
  rw [Nat.add_zero] at this
  rw [this]; decide

theorem mem_ebda_unverified_sum :
    byte_sum mem_ebda_unverified 0x9FC00 (rsdp_length mem_ebda_unverified 0x9FC00) % 256 =
      129 := by
  have hlen : rsdp_length mem_ebda_unverified 0x9FC00 = 0x80000000 := by decide
  have hz : ∀ i, 68 ≤ i → rd8 mem_ebda_unverified (0x9FC00 + i) = 0 := by
    intro i hi
    have h1 : rsdp_rev2_huge.length = 36 := rfl
    have h2 : rsdp_rev0.length = 20 := rfl
    have h3 : [0xC0, 0x9F].length = 2 := rfl
    unfold rd8 mem_ebda_unverified image
    rw [h1, h2, h3, if_neg (by omega), if_neg (by omega), if_neg (by omega)]
    rfl
  rw [hlen, byte_sum_tail_zero mem_ebda_unverified 0x9FC00 68 hz _ (by norm_num)]
  decide

/-- C2, on `mem_ebda_unverified`: the EBDA window starts at `0x9FC00`; the
structure there has the signature, revision 2, a `length` field of
`0x80000000` and an extended region summing to 129 modulo 256, so it is not
valid; the candidates `0x9FC10` and `0x9FC20` are not valid either, and the
lowest valid candidate of the window is the one at `0x9FC30`. `find_rsdp`
returns the structure at `0x9FC00`. -/
theorem find_rsdp_returns_unverified :
    ebda_addr id mem_ebda_unverified = 0x9FC00 ∧
    has_signature mem_ebda_unverified 0x9FC00 RSDP_SIG ∧
    rsdp_revision mem_ebda_unverified 0x9FC00 = 2 ∧
    rsdp_length mem_ebda_unverified 0x9FC00 = 0x80000000 ∧
    byte_sum mem_ebda_unverified 0x9FC00 (rsdp_length mem_ebda_unverified 0x9FC00) % 256 =
      129 ∧
    ¬ rsdp_valid mem_ebda_unverified 0x9FC00 ∧
    ¬ rsdp_valid mem_ebda_unverified 0x9FC10 ∧
    ¬ rsdp_valid mem_ebda_unverified 0x9FC20 ∧
    rsdp_valid mem_ebda_unverified 0x9FC30 ∧
    find_rsdp id mem_ebda_unverified 8193 = some (some 0x9FC00) := by
  refine ⟨by decide, by decide, by decide, by decide, mem_ebda_unverified_sum, ?_,
    not_rsdp_valid_of_first_byte _ _ (by decide), not_rsdp_valid_of_first_byte _ _ (by decide),
    ⟨by decide, by decide, fun h => absurd h (by decide)⟩, by decide⟩
  intro hv
  have := hv.2.2 (by decide)
  rw [mem_ebda_unverified_sum] at this
  exact absurd this (by decide)

theorem mem_unverified_misaligned_sum :
    byte_sum mem_unverified_misaligned 0xE0000
        (rsdp_length mem_unverified_misaligned 0xE0000) % 256 = 129 := by
  have hlen : rsdp_length mem_unverified_misaligned 0xE0000 = 0x80000000 := by decide
  have hz : ∀ i, 76 ≤ i → rd8 mem_unverified_misaligned (0xE0000 + i) = 0 := by
    intro i hi
    have h1 : rsdp_rev2_huge.length = 36 := rfl
    have h2 : rsdp_rev0.length = 20 := rfl
    unfold rd8 mem_unverified_misaligned mem_huge_length image
    rw [h1, h2, if_neg (by omega), if_neg (by omega)]
    rfl
  rw [hlen, byte_sum_tail_zero mem_unverified_misaligned 0xE0000 76 hz _ (by norm_num)]
  decide

theorem mem_unverified_misaligned_invalid (p : Nat) (hp : p % 16 = 0) :
    ¬ rsdp_valid mem_unverified_misaligned p := by
  by_cases h0 : p = 0xE0000
  · subst h0
    intro hv
    have := hv.2.2 (by decide)
    rw [mem_unverified_misaligned_sum] at this
    exact absurd this (by decide)
  · apply not_rsdp_valid_of_first_byte
    by_cases hin : 0xE0000 ≤ p ∧ p < 0xE0050
    · obtain ⟨k, rfl⟩ : ∃ k, p = 0xE0000 + 16 * k := ⟨(p - 0xE0000) / 16, by omega⟩
      have hk : k < 5 := by omega
      have hk0 : k ≠ 0 := by omega
      interval_cases k
      · exact absurd rfl hk0
      · decide
      · decide
      · decide
      · decide
    · have hz : mem_unverified_misaligned p = 0 := by
        have h1 : rsdp_rev2_huge.length = 36 := rfl
        have h2 : rsdp_rev0.length = 20 := rfl
        unfold mem_unverified_misaligned mem_huge_length image
        rw [h1, h2, if_neg (by omega), if_neg (by omega)]
        rfl
      show mem_unverified_misaligned p % 256 ≠ 82
      rw [hz]; decide

/-- C3, on `mem_unverified_misaligned`: the structure at `0xE0038`, not a
multiple of 16, is valid, and no structure at a multiple of 16 is valid, so
the only correctly signed and checksummed root pointers sit at addresses that
are not multiples of 16; `find_rsdp` does not return null, it returns the
structure at `0xE0000`, whose extended region sums to 129 modulo 256. -/
theorem find_rsdp_found_without_aligned_valid :
    rsdp_valid mem_unverified_misaligned 0xE0038 ∧ 0xE0038 % 16 = 8 ∧
    (∀ p, p % 16 = 0 → ¬ rsdp_valid mem_unverified_misaligned p) ∧
    has_signature mem_unverified_misaligned 0xE0000 RSDP_SIG ∧
    rsdp_revision mem_unverified_misaligned 0xE0000 = 2 ∧
    byte_sum mem_unverified_misaligned 0xE0000
        (rsdp_length mem_unverified_misaligned 0xE0000) % 256 = 129 ∧
    find_rsdp id mem_unverified_misaligned 8193 = some (some 0xE0000) := by
  refine ⟨⟨by decide, by decide, fun h => absurd h (by decide)⟩, by decide,
    mem_unverified_misaligned_invalid, by decide, by decide, mem_unverified_misaligned_sum,
    by decide⟩

theorem mem_unverified_sum :
    byte_sum mem_unverified 0xE0000 (rsdp_length mem_unverified 0xE0000) % 256 = 129 := by
  have hlen : rsdp_length mem_unverified 0xE0000 = 0x80000000 := by decide
  have hz : ∀ i, 36 ≤ i → rd8 mem_unverified (0xE0000 + i) = 0 := by
    intro i hi
    have h1 : rsdp_rev2_huge.length = 36 := rfl
    have h2 : rsdt_one.length = 40 := rfl
    have h3 : madt_four.length = 80 := rfl
    unfold rd8 mem_unverified image
    rw [h1, h2, h3, if_neg (by omega), if_neg (by omega), if_neg (by omega)]
    rfl
  rw [hlen, byte_sum_tail_zero mem_unverified 0xE0000 36 hz _ (by norm_num)]
  decide

theorem mem_unverified_invalid (j : Nat) (hj : j < 8192) :
    ¬ rsdp_valid mem_unverified (0xE0000 + 16 * j) := by
  by_cases h0 : j = 0
  · subst h0
    intro hv
    rw [Nat.mul_zero, Nat.add_zero] at hv
    have := hv.2.2 (by decide)
    rw [mem_unverified_sum] at this
    exact absurd this (by decide)
  · apply not_rsdp_valid_of_first_byte
    by_cases hin : j < 3
    · interval_cases j
      · exact absurd rfl h0
      · decide
      · decide
    · have hz : mem_unverified (0xE0000 + 16 * j) = 0 := by
        have h1 : rsdp_rev2_huge.length = 36 := rfl
        have h2 : rsdt_one.length = 40 := rfl
        have h3 : madt_four.length = 80 := rfl
        unfold mem_unverified image
        rw [h1, h2, h3, if_neg (by omega), if_neg (by omega), if_neg (by omega)]
        rfl
      show mem_unverified (0xE0000 + 16 * j) % 256 ≠ 82
      rw [hz]; decide

/-- C6, on `mem_unverified`: there is no EBDA window (`ebda_addr = 0`) and no
candidate of the ROM window is valid, the one at `0xE0000` having an extended
region that sums to 129 modulo 256; `find_rsdp` does not return null, it
returns the structure at `0xE0000`, and `acpi_init` does not halt: it returns
the CPU list `[1, 3]` and the I/O APIC id 5. -/
theorem find_rsdp_nonnull_without_valid :
    ebda_addr id mem_unverified = 0 ∧
    (∀ j, j < 8192 → ¬ rsdp_valid mem_unverified (0xE0000 + 16 * j)) ∧
    byte_sum mem_unverified 0xE0000 (rsdp_length mem_unverified 0xE0000) % 256 = 129 ∧
    find_rsdp id mem_unverified 8193 = some (some 0xE0000) ∧
    (acpi_init id 8 mem_unverified 8193 boot_state).diagnostic = none ∧
    (acpi_init id 8 mem_unverified 8193 boot_state).cpu_list = some [1, 3] ∧
    (acpi_init id 8 mem_unverified 8193 boot_state).ioapicid = some 5 := by
  refine ⟨by decide, mem_unverified_invalid, mem_unverified_sum, by decide, by decide,
    by decide, by decide⟩

end Acpi
